import Mathlib

/-!
# api-insight: ingestion, hourly aggregation and retention sweep

A shallow embedding of the three-stage pipeline of the repository
(`internal/http/handlers/ingest.go`, `internal/db/aggregation.go`,
`internal/db/retention.go`, with the data model of `internal/db/models.go`,
`internal/db/apikey.go` and `internal/config/config.go`).

Conventions of the embedding:

* `time.Time` is an `Int`, the instant in nanoseconds counted from the Unix
  epoch; `time.Duration` is a signed 64-bit count of nanoseconds, so duration
  arithmetic wraps (`wrap64`).
* Go `int`, `int64` values that are only stored, compared or counted are `Int`;
  slice lengths are `Nat`.
* A table is the list of its rows in primary-key order; the sequences that
  issue primary keys are part of the database state.
* What the code leaves to its environment is a parameter: errors returned by the
  database (`AggFaults`, and the `Bool` flags of the handler and the sweep), the
  order in which a `SELECT` without `ORDER BY` returns rows and the order in
  which `range` visits a map (`AggOrders`), and the clock (`now`, and
  `insertTime` for the reading the insert of a batch takes).
-/

namespace ApiInsight

/-! ## Time -/

/-- The constant `time.Hour`, in nanoseconds. -/
def Hour : Int := 3600000000000

/-- The instant of the zero value of `time.Time`, January 1 of year 1 at
00:00:00 UTC: 62135596800 seconds before the Unix epoch. -/
def zeroTime : Int := -62135596800000000000

/-- Two's-complement reduction of an integer to the range of `int64`. -/
def wrap64 (x : Int) : Int := (x + 9223372036854775808) % 18446744073709551616 - 9223372036854775808

/-! ## Data model (`internal/db/models.go`, `internal/db/apikey.go`, `internal/config/config.go`) -/

/-- Row of the events table (`db.Event`). `Attributes` is the JSON map, kept as
its key/value entries with the values in their JSON text. -/
structure Event where
  ID : Nat
  CreatedAt : Int
  ExpiresAt : Option Int
  UserID : String
  Project : String
  Route : String
  Method : String
  Status : Int
  DurationMs : Int
  RemoteIP : String
  Attributes : List (String × String)
deriving DecidableEq, Repr

/-- Row of the metric_buckets table (`db.MetricBucket`). -/
structure MetricBucket where
  ID : Nat
  UserID : String
  Project : String
  BucketStart : Int
  TotalCount : Int
  ErrorCount : Int
  DurationP50Ms : Int
  DurationP95Ms : Int
  DurationP99Ms : Int
deriving DecidableEq, Repr

/-- The fields of `db.APIKey` (the preloaded `User` is not read by the pipeline). -/
structure APIKey where
  ID : Nat
  UserID : Nat
  Name : String
  Environment : String
  Key : String
  RetentionDays : Int
  Active : Bool
deriving DecidableEq, Repr

/-- The field of `config.Config` read by the pipeline. -/
structure Config where
  RetentionDays : Int
deriving DecidableEq, Repr

/-- Database state: the two tables of the pipeline and the sequences that issue
their primary keys. -/
structure DB where
  events : List Event
  buckets : List MetricBucket
  eventSeq : Nat
  bucketSeq : Nat
deriving DecidableEq, Repr

/-- The constraints the database keeps on metric_buckets that the model relies
on: primary keys ascend along the table (so they are pairwise distinct) and
were all issued by the sequence. -/
def DB.WF (db : DB) : Prop :=
  (db.buckets.map MetricBucket.ID).Pairwise (· < ·) ∧ ∀ r ∈ db.buckets, r.ID < db.bucketSeq

instance (db : DB) : Decidable db.WF := by
  unfold DB.WF; infer_instance

/-! ## Hourly aggregation (`internal/db/aggregation.go`) -/

/-- The local type `key` of `runAggregationOnce`. -/
structure Key where
  UserID : String
  Project : String
deriving DecidableEq, Repr

/-- The anonymous struct `{status, dur}` collected per group. -/
structure Sample where
  status : Int
  dur : Int
deriving DecidableEq, Repr

/-- How a call of `runAggregationOnce` ends: `nil`, a returned error, or a
run-time panic (slice index out of range). -/
inductive Outcome where
  | ok
  | error
  | panic
deriving DecidableEq, Repr

/-- Errors the database may return to `runAggregationOnce`: for the window
query, and per group for the lookup (`First`, an error other than
record-not-found), the insert (`Create`) and the update (`Updates`). -/
structure AggFaults where
  findErr : Bool
  firstErr : Key → Bool
  createErr : Key → Bool
  updatesErr : Key → Bool

/-- The database never returns an error. -/
def noFaults : AggFaults :=
  { findErr := false, firstErr := fun _ => false, createErr := fun _ => false,
    updatesErr := fun _ => false }

/-- Orders the code does not control: `scan` is the order in which the window
query returns its rows, `range` the order in which `range groups` visits the map. -/
structure AggOrders where
  scan : List Event → List Event
  range : List (Key × List Sample) → List (Key × List Sample)

/-- Both orders are rearrangements: every row is returned once, every map
entry is visited once. -/
def AggOrders.Valid (o : AggOrders) : Prop :=
  (∀ l, (o.scan l).Perm l) ∧ ∀ g, (o.range g).Perm g

/-- Rows in table order, map entries in insertion order. -/
def plainOrders : AggOrders := { scan := id, range := id }

/-- The condition of the window query: `created_at >= bucketStart AND created_at < bucketEnd`. -/
def inWindow (bucketStart : Int) (e : Event) : Bool :=
  let bucketEnd := bucketStart + Hour
  decide (bucketStart ≤ e.CreatedAt) && decide (e.CreatedAt < bucketEnd)

/-- The projection `Select("user_id", "project", "status", "duration_ms")`: the
other fields of the loaded structs keep their zero values. -/
def selectColumns (e : Event) : Event :=
  { ID := 0, CreatedAt := 0, ExpiresAt := none, UserID := e.UserID, Project := e.Project,
    Route := "", Method := "", Status := e.Status, DurationMs := e.DurationMs,
    RemoteIP := "", Attributes := [] }

/-- The window query of `runAggregationOnce` (when it does not fail). -/
def windowEvents (o : AggOrders) (db : DB) (bucketStart : Int) : List Event :=
  (o.scan (db.events.filter (inWindow bucketStart))).map selectColumns

/-- The statement `groups[k] = append(groups[k], s)` on a map kept as its entries. -/
def appendGroup : List (Key × List Sample) → Key → Sample → List (Key × List Sample)
  | [], k, s => [(k, [s])]
  | (k', l) :: rest, k, s =>
    if k' = k then (k', l ++ [s]) :: rest else (k', l) :: appendGroup rest k s

/-- The grouping loop: `for _, e := range events`. -/
def groupEvents (events : List Event) : List (Key × List Sample) :=
  events.foldl
    (fun groups e => appendGroup groups { UserID := e.UserID, Project := e.Project }
      { status := e.Status, dur := e.DurationMs })
    []

/-- The inner loop over a group: counts the samples with `status >= 400` and
collects the durations. -/
def scanGroup (list : List Sample) : Int × List Int :=
  list.foldl
    (fun acc p => (if p.status ≥ 400 then acc.1 + 1 else acc.1, acc.2 ++ [p.dur]))
    (0, [])

/-- The call `sort.Slice(durations, less)` with `less` the order `<` of `int64`:
the ascending rearrangement of the slice. -/
def sortDurations (durations : List Int) : List Int :=
  durations.insertionSort (· ≤ ·)

/-- The index expression `(n*p)/100` of the percentile of rank `p`. -/
def pctIndex (n p : Nat) : Nat := (n * p) / 100

/-- The three percentiles: zero for an empty slice, else the elements at the
three indexes; `none` when an index is out of range (the code would panic). -/
def percentiles (durations : List Int) : Option (Int × Int × Int) :=
  let n := durations.length
  if n > 0 then
    match durations[pctIndex n 50]?, durations[pctIndex n 95]?, durations[pctIndex n 99]? with
    | some p50, some p95, some p99 => some (p50, p95, p99)
    | _, _, _ => none
  else some (0, 0, 0)

/-- The value `row` built for a group (its primary key still unset). -/
def groupRow (bucketStart : Int) (k : Key) (list : List Sample) : Option MetricBucket :=
  let total : Int := list.length
  let (errorCount, durations) := scanGroup list
  match percentiles (sortDurations durations) with
  | none => none
  | some (p50, p95, p99) =>
    some { ID := 0, UserID := k.UserID, Project := k.Project, BucketStart := bucketStart,
           TotalCount := total, ErrorCount := errorCount, DurationP50Ms := p50,
           DurationP95Ms := p95, DurationP99Ms := p99 }

/-- The condition `user_id = ? AND project = ? AND bucket_start = ?`. -/
def bucketMatches (k : Key) (bucketStart : Int) (r : MetricBucket) : Bool :=
  decide (r.UserID = k.UserID) && decide (r.Project = k.Project) &&
    decide (r.BucketStart = bucketStart)

/-- The lookup `db.Where(...).First(&existing)`: the matching row of least primary key. -/
def findBucket (buckets : List MetricBucket) (k : Key) (bucketStart : Int) : Option MetricBucket :=
  buckets.find? (bucketMatches k bucketStart)

/-- The assignment list of the update: `total_count`, `error_count` and the
three percentile columns of `r` take the values of `row`. -/
def overwriteDerived (r row : MetricBucket) : MetricBucket :=
  { r with TotalCount := row.TotalCount, ErrorCount := row.ErrorCount,
           DurationP50Ms := row.DurationP50Ms, DurationP95Ms := row.DurationP95Ms,
           DurationP99Ms := row.DurationP99Ms }

/-- The insert `db.Create(&row)`: the row is stored under the next primary key. -/
def createBucket (db : DB) (row : MetricBucket) : DB :=
  { db with buckets := db.buckets ++ [{ row with ID := db.bucketSeq }],
            bucketSeq := db.bucketSeq + 1 }

/-- The update `db.Model(&existing).Updates(...)`: the five derived columns of
the row whose primary key is `id` are overwritten. -/
def updateBucket (db : DB) (id : Nat) (row : MetricBucket) : DB :=
  { db with buckets := db.buckets.map fun r => if r.ID = id then overwriteDerived r row else r }

/-- One iteration of `for k, list := range groups`. -/
def upsertGroup (f : AggFaults) (bucketStart : Int) (db : DB) (k : Key) (list : List Sample) :
    DB × Outcome :=
  match groupRow bucketStart k list with
  | none => (db, Outcome.panic)
  | some row =>
    if f.firstErr k then (db, Outcome.error)
    else
      match findBucket db.buckets k bucketStart with
      | none => if f.createErr k then (db, Outcome.error) else (createBucket db row, Outcome.ok)
      | some existing =>
        if f.updatesErr k then (db, Outcome.error)
        else (updateBucket db existing.ID row, Outcome.ok)

/-- The loop `for k, list := range groups`, left at the first error. -/
def upsertGroups (f : AggFaults) (bucketStart : Int) : List (Key × List Sample) → DB → DB × Outcome
  | [], db => (db, Outcome.ok)
  | (k, list) :: rest, db =>
    match upsertGroup f bucketStart db k list with
    | (db', Outcome.ok) => upsertGroups f bucketStart rest db'
    | r => r

/-- The function `runAggregationOnce(db, bucketStart)`: the database it leaves
and how it returns. -/
def runAggregationOnce (f : AggFaults) (o : AggOrders) (db : DB) (bucketStart : Int) :
    DB × Outcome :=
  if f.findErr then (db, Outcome.error)
  else upsertGroups f bucketStart (o.range (groupEvents (windowEvents o db bucketStart))) db

/-! ## Ingestion (`internal/http/handlers/ingest.go`) -/

/-- One element of the request body (`handlers.IngestEvent`); an absent
optional field has its zero value, an absent `timestamp` is `none`. -/
structure IngestEvent where
  Timestamp : Option Int
  Path : String
  Method : String
  Status : Int
  UserID : String
  DurationMs : Int
  RemoteIP : String
  Attributes : List (String × String)
deriving DecidableEq, Repr

/-- What the handler leaves in the request context: status code, body, and the
content type when the handler sets one. -/
structure Response where
  statusCode : Nat
  body : String
  contentType : Option String
deriving DecidableEq, Repr

/-- The conversion `int(ak.UserID)` of an unsigned 64-bit value. -/
def intOfUint (u : Nat) : Int := wrap64 u

/-- Retention in force for a call: the configured value, replaced by the API
key's when there is a key in the context and its value is positive. -/
def IngestHandler.retentionDays (cfg : Config) (apiKey : Option APIKey) : Int :=
  match apiKey with
  | some ak => if ak.RetentionDays > 0 then ak.RetentionDays else cfg.RetentionDays
  | none => cfg.RetentionDays

/-- Owner recorded on the events: `strconv.Itoa(int(ak.UserID))`, empty without a key. -/
def IngestHandler.ownerUserID (apiKey : Option APIKey) : String :=
  match apiKey with
  | some ak => toString (intOfUint ak.UserID)
  | none => ""

/-- Project recorded on the events: the key's name, empty without a key. -/
def IngestHandler.project (apiKey : Option APIKey) : String :=
  match apiKey with
  | some ak => ak.Name
  | none => ""

/-- The duration `time.Duration(retentionDays) * 24 * time.Hour`, each product
taken in `int64`. -/
def IngestHandler.retentionDuration (retentionDays : Int) : Int :=
  wrap64 (wrap64 (retentionDays * 24) * Hour)

/-- The local `expiresAt`: `createdAt.Add(...)` under a positive retention, else nil. -/
def IngestHandler.expiresAt (retentionDays : Int) (createdAt : Int) : Option Int :=
  if retentionDays > 0 then some (createdAt + IngestHandler.retentionDuration retentionDays)
  else none

/-- The record built for one event with a non-empty path. -/
def IngestHandler.record (retentionDays now : Int) (ownerUserID project : String)
    (ev : IngestEvent) : Event :=
  let createdAt := match ev.Timestamp with
    | some t => t
    | none => now
  { ID := 0, CreatedAt := createdAt, ExpiresAt := IngestHandler.expiresAt retentionDays createdAt,
    UserID := ownerUserID, Project := project, Route := ev.Path, Method := ev.Method,
    Status := ev.Status, DurationMs := ev.DurationMs, RemoteIP := ev.RemoteIP,
    Attributes := ev.Attributes }

/-- The loop `for _, ev := range payload.Events`: events with an empty path are
passed over, the others appended to `records`. -/
def IngestHandler.records (retentionDays now : Int) (ownerUserID project : String)
    (events : List IngestEvent) : List Event :=
  events.foldl
    (fun records ev =>
      if ev.Path = "" then records
      else records ++ [IngestHandler.record retentionDays now ownerUserID project ev])
    []

/-- Primary keys given to a batch: consecutive values of the sequence. -/
def assignIDs (seq : Nat) : List Event → List Event
  | [] => []
  | r :: rs => { r with ID := seq } :: assignIDs (seq + 1) rs

/-- What the insert does to the field `CreatedAt` of a record: the ORM tracks a
field of that name as the creation time, and a record that reaches the insert
with the zero value of `time.Time` in it is given the clock reading the insert
took, `insertTime`; any other value is stored as it is. A time being its
instant here, the zero value is the one at `zeroTime`: the handler leaves it in
a record when the payload gives the timestamp 0001-01-01T00:00:00Z. -/
def autoCreateTime (insertTime : Int) (r : Event) : Event :=
  if r.CreatedAt = zeroTime then { r with CreatedAt := insertTime } else r

/-- The batch insert `db.Create(&records)` at clock reading `insertTime`: the
creation times are filled in where they are zero, the primary keys are issued,
and the rows are appended. The rows hold the instants as they were given: the
resolution of the column type is not part of the model. -/
def createEvents (db : DB) (insertTime : Int) (records : List Event) : DB :=
  { db with events := db.events ++ assignIDs db.eventSeq (records.map (autoCreateTime insertTime)),
            eventSeq := db.eventSeq + records.length }

/-- The handler returned by `IngestHandler(db, cfg)`, run on one request.
`payload` is the decoded body (`none` when `json.Unmarshal` fails), `apiKey` the
key found in the request context, `now` the reading of `time.Now()` in the
handler, `insertTime` the reading the batch insert takes, `createErr` whether
the batch insert returns an error. The Prometheus counters it also feeds are not
part of the model. -/
def IngestHandler (createErr : Bool) (cfg : Config) (now insertTime : Int)
    (apiKey : Option APIKey) (payload : Option (List IngestEvent)) (db : DB) : DB × Response :=
  match payload with
  | none => (db, { statusCode := 400, body := "invalid JSON body", contentType := none })
  | some events =>
    if events.length = 0 then
      (db, { statusCode := 400, body := "no events provided", contentType := none })
    else
      let retentionDays := IngestHandler.retentionDays cfg apiKey
      let ownerUserID := IngestHandler.ownerUserID apiKey
      let project := IngestHandler.project apiKey
      let records := IngestHandler.records retentionDays now ownerUserID project events
      if records.length = 0 then
        (db, { statusCode := 400, body := "no valid events after validation",
               contentType := none })
      else if createErr then
        (db, { statusCode := 500, body := "failed to persist events", contentType := none })
      else
        (createEvents db insertTime records,
          { statusCode := 202,
            body := "\x7b\"status\":\"accepted\",\"count\":" ++ toString records.length ++ "\x7d",
            contentType := some "application/json" })

/-! ## Retention sweep (`internal/db/retention.go`) -/

/-- The condition `expires_at IS NOT NULL AND expires_at <= now`. -/
def expired (now : Int) (e : Event) : Bool :=
  match e.ExpiresAt with
  | some t => decide (t ≤ now)
  | none => false

/-- The function `runRetentionOnce(db)` at clock reading `now`; `deleteErr` is
whether the delete statement returns an error. -/
def runRetentionOnce (deleteErr : Bool) (now : Int) (db : DB) : DB × Outcome :=
  if deleteErr then (db, Outcome.error)
  else ({ db with events := db.events.filter fun e => !expired now e }, Outcome.ok)

/-! ## Reference notions used to state the properties -/

/-- The (tenant, project) pair of an event. -/
def Event.key (e : Event) : Key := { UserID := e.UserID, Project := e.Project }

/-- The status and duration of an event. -/
def Event.sample (e : Event) : Sample := { status := e.Status, dur := e.DurationMs }

/-- The events of group `k` in the window starting at `h`, in table order. -/
def groupOf (db : DB) (h : Int) (k : Key) : List Event :=
  db.events.filter fun e => inWindow h e && decide (e.key = k)

/-- Number of rows of the bucket table stored under (k, h). -/
def countBuckets (buckets : List MetricBucket) (k : Key) (h : Int) : Nat :=
  buckets.countP (bucketMatches k h)

/-- Whether the status counts as an error. -/
def isError (status : Int) : Bool := decide (status ≥ 400)

/-- The samples the grouping loop has collected under `k` after reading `evs`. -/
def samplesOf (evs : List Event) (k : Key) : List Sample :=
  (evs.filter fun e => decide (e.key = k)).map Event.sample

/-- Invariant of the grouping loop: keys are distinct, and the entries are
exactly the non-empty sample lists of the events read so far. -/
def GroupsOf (g : List (Key × List Sample)) (evs : List Event) : Prop :=
  (g.map Prod.fst).Nodup ∧
    ∀ k l, (k, l) ∈ g ↔ (l = samplesOf evs k ∧ l ≠ [])

/-- The derived columns of a bucket row. -/
def MetricBucket.derived (r : MetricBucket) : Int × Int × Int × Int × Int :=
  (r.TotalCount, r.ErrorCount, r.DurationP50Ms, r.DurationP95Ms, r.DurationP99Ms)

/-- The row computed from a group of samples, in closed form: size, number of
error statuses, and the sorted durations read at the three percentile indexes. -/
def statsRow (h : Int) (k : Key) (l : List Sample) : MetricBucket :=
  let s := sortDurations (l.map Sample.dur)
  let n := s.length
  { ID := 0, UserID := k.UserID, Project := k.Project, BucketStart := h,
    TotalCount := (l.length : Int),
    ErrorCount := ((l.countP fun p => isError p.status : Nat) : Int),
    DurationP50Ms := (s[pctIndex n 50]?).getD 0,
    DurationP95Ms := (s[pctIndex n 95]?).getD 0,
    DurationP99Ms := (s[pctIndex n 99]?).getD 0 }

/-- The database after an error-free upsert of the group `(k, l)`. -/
def upsertDB (h : Int) (db : DB) (k : Key) (l : List Sample) : DB :=
  match findBucket db.buckets k h with
  | none => createBucket db (statsRow h k l)
  | some existing => updateBucket db existing.ID (statsRow h k l)

/-- The database after error-free upserts of the groups `gs`, in that order. -/
def upsertAll (h : Int) : List (Key × List Sample) → DB → DB
  | [], db => db
  | (k, l) :: rest, db => upsertAll h rest (upsertDB h db k l)

/-- Whether persisting the bucket of group `k` returns an error: the lookup
fails, or the statement chosen by its result (insert or update) does. -/
def persistFails (f : AggFaults) (db : DB) (h : Int) (k : Key) : Bool :=
  f.firstErr k ||
    (match findBucket db.buckets k h with
     | none => f.createErr k
     | some _ => f.updatesErr k)

/-! ## Sample data -/

/-- An event of the given tenant, project, instant, status and duration. -/
def mkEvent (id : Nat) (createdAt : Int) (user project : String) (status dur : Int) : Event :=
  { ID := id, CreatedAt := createdAt, ExpiresAt := none, UserID := user, Project := project,
    Route := "/a", Method := "GET", Status := status, DurationMs := dur, RemoteIP := "",
    Attributes := [] }

/-- Five events of one group in the hour starting at 0, durations 30, 10, 50, 20, 40. -/
def dbFive : DB :=
  { events := [mkEvent 1 5 "1" "shop" 200 30, mkEvent 2 6 "1" "shop" 500 10,
               mkEvent 3 7 "1" "shop" 200 50, mkEvent 4 8 "1" "shop" 404 20,
               mkEvent 5 9 "1" "shop" 200 40],
    buckets := [], eventSeq := 6, bucketSeq := 1 }

/-- Two groups in the hour starting at 0, and a stale row for the first. -/
def dbTwo : DB :=
  { events := [mkEvent 1 5 "1" "shop" 200 30, mkEvent 2 6 "1" "blog" 500 10,
               mkEvent 3 7 "1" "shop" 200 50],
    buckets := [{ ID := 1, UserID := "1", Project := "shop", BucketStart := 0, TotalCount := 1,
                  ErrorCount := 0, DurationP50Ms := 30, DurationP95Ms := 30,
                  DurationP99Ms := 30 }],
    eventSeq := 4, bucketSeq := 2 }

/-- The group of tenant 1, project shop. -/
def keyShop : Key := { UserID := "1", Project := "shop" }

/-- The group of tenant 1, project blog. -/
def keyBlog : Key := { UserID := "1", Project := "blog" }

/-- The update of the row of the shop group fails. -/
def shopUpdateFails : AggFaults :=
  { findErr := false, firstErr := fun _ => false, createErr := fun _ => false,
    updatesErr := fun k => decide (k = keyShop) }

/-- An API key of tenant 7 named shop with the given stored retention. -/
def keyWithRetention (days : Int) : APIKey :=
  { ID := 1, UserID := 7, Name := "shop", Environment := "prod", Key := "ai_k",
    RetentionDays := days, Active := true }

/-- A payload event with the given path and duration, every other field absent. -/
def mkIngest (path : String) (dur : Int) : IngestEvent :=
  { Timestamp := none, Path := path, Method := "", Status := 0, UserID := "",
    DurationMs := dur, RemoteIP := "", Attributes := [] }

/-- The empty database, sequences at their first value. -/
def emptyDB : DB := { events := [], buckets := [], eventSeq := 1, bucketSeq := 1 }

/-- Three stored events seen at clock reading 1000: one expired at 900, one
expiring at 1100, one that never expires; and one that expires at 1000. -/
def dbExpiry : DB :=
  { events := [{ mkEvent 1 0 "1" "shop" 200 5 with ExpiresAt := some 900 },
               { mkEvent 2 0 "1" "shop" 200 5 with ExpiresAt := some 1100 },
               mkEvent 3 0 "1" "shop" 200 5,
               { mkEvent 4 0 "1" "shop" 200 5 with ExpiresAt := some 1000 }],
    buckets := [], eventSeq := 5, bucketSeq := 1 }

/-- Whether a payload event passes validation: its path is not empty. -/
def IngestEvent.valid (ev : IngestEvent) : Bool := decide (ev.Path ≠ "")

/-- The record with its primary key unset. -/
def Event.clearID (e : Event) : Event := { e with ID := 0 }

/-- What a stored event carries of the payload event it was built from. -/
def storedFrom (ev : IngestEvent) (r : Event) : Prop :=
  r.Route = ev.Path ∧ r.Method = ev.Method ∧ r.Status = ev.Status ∧
    r.DurationMs = ev.DurationMs ∧ r.RemoteIP = ev.RemoteIP ∧ r.Attributes = ev.Attributes

/-! ## Reference notions for the bucket table -/

/-- The natural key of a bucket row: tenant, project and hour. -/
def MetricBucket.naturalKey (r : MetricBucket) : String × String × Int :=
  (r.UserID, r.Project, r.BucketStart)

/-- A bucket row without its primary key: natural key and derived columns. -/
def MetricBucket.content (r : MetricBucket) : (String × String × Int) × (Int × Int × Int × Int × Int) :=
  (r.naturalKey, r.derived)

/-- At most one row per (tenant, project, bucket_start). -/
def UniqueKeys (buckets : List MetricBucket) : Prop :=
  (buckets.map MetricBucket.naturalKey).Nodup

instance (buckets : List MetricBucket) : Decidable (UniqueKeys buckets) := by
  unfold UniqueKeys; infer_instance

/-! ## The aggregation worker (`StartAggregationWorker`) and the retention worker -/

/-- What one call of `runAggregationOnce` meets: the errors the database
returns, the orders of rows and of map entries, and the contents of the events
table at that moment (ingestion and the sweep run beside the worker). -/
structure PassEnv where
  faults : AggFaults
  orders : AggOrders
  events : List Event

/-- A sequence of calls `runAggregationOnce(db, bucketStart)` made one after the
other, with the hour and the outcome of each call made; a panic ends the
goroutine that makes the calls. -/
def aggregationPasses : List (Int × PassEnv) → DB → DB × List (Int × Outcome)
  | [], db => (db, [])
  | (bucketStart, env) :: rest, db =>
    match runAggregationOnce env.faults env.orders { db with events := env.events } bucketStart with
    | (db', Outcome.panic) => (db', [(bucketStart, Outcome.panic)])
    | (db', out) =>
      ((aggregationPasses rest db').1, (bucketStart, out) :: (aggregationPasses rest db').2)

/-- Two groups with one event each in the hour starting at 0 and one event in
the next hour; the bucket table holds a row of another hour. -/
def dbHours : DB :=
  { events := [mkEvent 1 5 "1" "shop" 200 30, mkEvent 2 6 "1" "blog" 500 10,
               mkEvent 3 3600000000007 "1" "shop" 200 50],
    buckets := [{ ID := 1, UserID := "1", Project := "shop", BucketStart := 7200000000000,
                  TotalCount := 4, ErrorCount := 1, DurationP50Ms := 30, DurationP95Ms := 30,
                  DurationP99Ms := 30 }],
    eventSeq := 4, bucketSeq := 2 }

/-- The environment of a call without errors, rows and entries in plain
order, over the given events. -/
def plainEnv (events : List Event) : PassEnv :=
  { faults := noFaults, orders := plainOrders, events := events }

/-- The value of a decimal digit, `none` for any other character. -/
def digitValue (c : Char) : Option Nat :=
  if 48 ≤ c.toNat ∧ c.toNat ≤ 57 then some (c.toNat - 48) else none

/-- The value of a run of decimal digits read after `n`, `none` when a
character is not a digit. -/
def parseDigits : List Char → Nat → Option Nat
  | [], n => some n
  | c :: cs, n =>
    match digitValue c with
    | some d => parseDigits cs (n * 10 + d)
    | none => none

/-- The library function `strconv.Atoi` on a 64-bit platform: an optional sign
followed by at least one decimal digit, the value within the range of `int`;
`none` stands for a returned error. -/
def Atoi (s : String) : Option Int :=
  let signed : Bool × List Char :=
    match s.toList with
    | c :: cs => if c = '-' then (true, cs) else if c = '+' then (false, cs) else (false, c :: cs)
    | [] => (false, [])
  if signed.2 = [] then none
  else
    match parseDigits signed.2 0 with
    | none => none
    | some n =>
      let v : Int := if signed.1 then -(n : Int) else (n : Int)
      if -9223372036854775808 ≤ v ∧ v ≤ 9223372036854775807 then some v else none

/-- The fields of `db.User` that key creation reads. -/
structure User where
  ID : Nat
  Username : String
  IsAdmin : Bool
deriving DecidableEq, Repr

/-- The api_keys table with the sequence that issues its primary keys. -/
structure KeyTable where
  keys : List APIKey
  seq : Nat
deriving DecidableEq, Repr

/-- What an admin handler leaves in the request context: status code, body and
the target of a redirect. -/
structure AdminResponse where
  statusCode : Nat
  body : String
  location : Option String
deriving DecidableEq, Repr

/-- The retention computed by `CreateAPIKey` from the form value
`retention_days` (empty when the field is omitted): the maximum when the value
is empty, the value clamped to the maximum when it parses as a positive
integer, and `none` (the request is refused) otherwise. -/
def CreateAPIKey.retentionDays (cfg : Config) (retentionStr : String) : Option Int :=
  let maxRetention := cfg.RetentionDays
  if retentionStr ≠ "" then
    match Atoi retentionStr with
    | some v =>
      if v > 0 then
        if v > maxRetention then some maxRetention else some v
      else none
    | none => none
  else some maxRetention

/-- The handler returned by `CreateAPIKey(db, cfg)`, run on one request. `user`
is the user found in the request context, `generated` the key produced by
`generateAPIKey` (`none` when the random source fails), `createErr` whether the
insert returns an error. -/
def CreateAPIKey (createErr : Bool) (generated : Option String) (cfg : Config)
    (user : Option User) (name environment retentionStr : String) (tbl : KeyTable) :
    KeyTable × AdminResponse :=
  if name = "" ∨ environment = "" then
    (tbl, { statusCode := 400, body := "name and environment required", location := none })
  else
    match CreateAPIKey.retentionDays cfg retentionStr with
    | none => (tbl, { statusCode := 400, body := "invalid retention_days", location := none })
    | some retentionDays =>
      match user with
      | none => (tbl, { statusCode := 401, body := "unauthorized", location := none })
      | some u =>
        match generated with
        | none =>
          (tbl, { statusCode := 500, body := "failed to generate API key", location := none })
        | some key =>
          if createErr then
            (tbl, { statusCode := 400,
                    body := "failed to create API key (name may already exist for this user)",
                    location := none })
          else
            ({ keys := tbl.keys ++
                 [{ ID := tbl.seq, UserID := u.ID, Name := name, Environment := environment,
                    Key := key, RetentionDays := retentionDays, Active := true }],
               seq := tbl.seq + 1 },
              { statusCode := 303, body := "", location := some "/settings" })

/-- The admin user of the samples. -/
def adminUser : User := { ID := 7, Username := "admin", IsAdmin := true }

/-- The empty api_keys table. -/
def emptyKeys : KeyTable := { keys := [], seq := 1 }

/-! ## Configuration (`internal/config/config.go`) -/

/-- The function `config.Load` as far as the retention goes: 30, replaced by
the value of `APP_RETENTION_DAYS` when that is not empty and parses as a
positive integer. `getenv` is `os.Getenv`, empty for an unset variable. -/
def Load (getenv : String → String) : Config :=
  let v := getenv "APP_RETENTION_DAYS"
  if v ≠ "" then
    match Atoi v with
    | some days => if days > 0 then { RetentionDays := days } else { RetentionDays := 30 }
    | none => { RetentionDays := 30 }
  else { RetentionDays := 30 }

/-- The payload event with its `user_id` field blanked. -/
def IngestEvent.withoutUserID (ev : IngestEvent) : IngestEvent := { ev with UserID := "" }

/-- An environment in which only `APP_RETENTION_DAYS` is set, to the given text. -/
def envRetention (text : String) : String → String :=
  fun name => if name = "APP_RETENTION_DAYS" then text else ""

/-- The store of two groups with the events of the blog group removed and an
event of another tenant added. -/
def dbOther : DB :=
  { events := [mkEvent 1 5 "1" "shop" 200 30, mkEvent 3 7 "1" "shop" 200 50,
               mkEvent 9 8 "2" "shop" 500 700],
    buckets := dbTwo.buckets, eventSeq := 10, bucketSeq := 2 }

/-- Rows and map entries in reverse order. -/
def reverseOrders : AggOrders := { scan := List.reverse, range := List.reverse }

/-! ## Bearer authentication (`internal/http/middleware/auth.go`) -/

/-- The library predicate `unicode.IsSpace`. -/
def isSpace (c : Char) : Bool :=
  decide (c.toNat = 9 ∨ c.toNat = 10 ∨ c.toNat = 11 ∨ c.toNat = 12 ∨ c.toNat = 13 ∨
    c.toNat = 32 ∨ c.toNat = 133 ∨ c.toNat = 160 ∨ c.toNat = 5760 ∨
    (8192 ≤ c.toNat ∧ c.toNat ≤ 8202) ∨ c.toNat = 8232 ∨ c.toNat = 8233 ∨ c.toNat = 8239 ∨
    c.toNat = 8287 ∨ c.toNat = 12288)

/-- The library function `strings.TrimSpace`: leading and trailing white space removed. -/
def TrimSpace (s : String) : String :=
  String.mk ((s.data.dropWhile isSpace).reverse.dropWhile isSpace).reverse

/-- What the middleware places in the request context before it calls the
wrapped handler: the token, the API key found, and the key's preloaded owner. -/
structure AuthCtx where
  userToken : String
  apiKey : APIKey
  user : User
deriving DecidableEq, Repr

/-- How the middleware ends: it answers by itself, or it calls the wrapped
handler, whose result is kept. -/
inductive AuthOutcome (α : Type) where
  | rejected (resp : Response)
  | passed (result : α)
deriving DecidableEq

/-- The zero value of `db.User`, what the field `User` of a key holds when no
owner was loaded into it. -/
def zeroUser : User := { ID := 0, Username := "", IsAdmin := false }

/-- The owner loaded by `Preload("User")` into the key found: the row of the
users table whose primary key is the key's `UserID`. A zero `UserID` is not
looked up, and when no row has that primary key the field keeps its zero value. -/
def preloadUser (users : List User) (ak : APIKey) : User :=
  if ak.UserID = 0 then zeroUser
  else
    match users.find? fun u => decide (u.ID = ak.UserID) with
    | some u => u
    | none => zeroUser

/-- The token of a header value: what follows the first seven bytes, trimmed. -/
def bearerToken (authorization : String) : String :=
  TrimSpace (String.mk (authorization.data.drop 7))

/-- The handler returned by `BearerAuth(db)(next)`, run on a request whose
Authorization header has the value `authorization` (empty when the header is
missing). `keys` and `users` are the api_keys and users tables, `dbErr` is
whether the lookup returns an error other than record-not-found. -/
def BearerAuth {α : Type} (dbErr : Bool) (keys : List APIKey) (users : List User)
    (next : AuthCtx → α) (authorization : String) : AuthOutcome α :=
  if authorization = "" then
    AuthOutcome.rejected
      { statusCode := 401, body := "missing Authorization header", contentType := none }
  else if authorization.data.take 7 ≠ "Bearer ".data then
    AuthOutcome.rejected
      { statusCode := 401, body := "invalid Authorization header", contentType := none }
  else
    let token := bearerToken authorization
    if token = "" then
      AuthOutcome.rejected
        { statusCode := 401, body := "empty bearer token", contentType := none }
    else if dbErr then
      AuthOutcome.rejected { statusCode := 500, body := "database error", contentType := none }
    else
      match keys.find? fun ak => decide (ak.Key = token) && ak.Active with
      | none =>
        AuthOutcome.rejected { statusCode := 401, body := "invalid API key", contentType := none }
      | some apiKey =>
        AuthOutcome.passed
          (next { userToken := token, apiKey := apiKey, user := preloadUser users apiKey })

/-- Whether the middleware answered 401 without calling the wrapped handler. -/
def AuthOutcome.unauthorized {α : Type} : AuthOutcome α → Prop
  | AuthOutcome.rejected resp => resp.statusCode = 401
  | AuthOutcome.passed _ => False

instance {α : Type} (o : AuthOutcome α) : Decidable o.unauthorized := by
  cases o <;> unfold AuthOutcome.unauthorized <;> infer_instance

/-- A second user of the samples. -/
def otherUser : User := { ID := 3, Username := "bob", IsAdmin := false }

/-- The api_keys table of the samples: one active key and one disabled key. -/
def sampleKeys : List APIKey :=
  [{ ID := 1, UserID := 7, Name := "shop", Environment := "prod", Key := "ai_live",
     RetentionDays := 10, Active := true },
   { ID := 2, UserID := 7, Name := "old", Environment := "prod", Key := "ai_off",
     RetentionDays := 10, Active := false }]

/-! ## Error rate (`ErrorRateSeries` in `internal/http/handlers/metrics.go`) -/

/-- The float64 arithmetic the handler uses, by its values: `round` sends a real
(here rational) value to the float64 that stands for it, as the conversion
`float64(x)` of an integer and the division of two float64 values do. What is
recorded of it holds of rounding to nearest in IEEE-754: it preserves order,
and integers up to 2^53 in absolute value are float64 values. -/
structure Float64Arith where
  round : ℚ → ℚ
  round_mono : ∀ x y : ℚ, x ≤ y → round x ≤ round y
  round_int : ∀ n : ℤ, |n| ≤ 9007199254740992 → round (n : ℚ) = (n : ℚ)

/-- The local `rate` computed for a bucket: zero unless `TotalCount > 0`, else
the float64 quotient `float64(b.ErrorCount) / float64(b.TotalCount)`. -/
def errorRate (F : Float64Arith) (b : MetricBucket) : ℚ :=
  if b.TotalCount > 0 then
    F.round (F.round (b.ErrorCount : ℚ) / F.round (b.TotalCount : ℚ))
  else 0

/-- One element of the series: the bucket start (rendered as text by the
handler), the rate and the two counts. -/
structure RatePoint where
  bucket : Int
  errorRate : ℚ
  total : Int
  errors : Int

/-- The loop of `ErrorRateSeries` over the buckets its query returned. -/
def errorRateSeries (F : Float64Arith) (buckets : List MetricBucket) : List RatePoint :=
  buckets.map fun b =>
    { bucket := b.BucketStart, errorRate := errorRate F b, total := b.TotalCount,
      errors := b.ErrorCount }

/-- Arithmetic without rounding error, an instance of the recorded facts. -/
def exactArith : Float64Arith :=
  { round := fun x => x, round_mono := fun _ _ h => h, round_int := fun _ _ => rfl }

/-- A bucket with the given counts. -/
def bucketWithCounts (total errors : Int) : MetricBucket :=
  { ID := 1, UserID := "1", Project := "shop", BucketStart := 0, TotalCount := total,
    ErrorCount := errors, DurationP50Ms := 0, DurationP95Ms := 0, DurationP99Ms := 0 }

/-! # Properties -/

/-! ## Grouping -/

theorem samplesOf_append (evs : List Event) (e : Event) (k : Key) :
    samplesOf (evs ++ [e]) k = samplesOf evs k ++ (if e.key = k then [e.sample] else []) := by
  unfold samplesOf
  by_cases h : e.key = k <;> simp [List.filter_append, h]

theorem appendGroup_keys (g : List (Key × List Sample)) (k : Key) (s : Sample) :
    (appendGroup g k s).map Prod.fst =
      if k ∈ g.map Prod.fst then g.map Prod.fst else g.map Prod.fst ++ [k] := by
  induction g with
  | nil => simp [appendGroup]
  | cons p rest ih =>
    obtain ⟨k', l⟩ := p
    by_cases hk : k' = k
    · subst hk; simp [appendGroup]
    · have hk' : ¬ k = k' := fun h => hk h.symm
      by_cases hm : k ∈ rest.map Prod.fst
      · simp only [appendGroup, if_neg hk, List.map_cons, ih, if_pos hm, List.mem_cons,
          hm, or_true, if_true]
      · simp only [appendGroup, if_neg hk, List.map_cons, ih, if_neg hm, List.mem_cons,
          hm, hk', or_self, if_false, List.cons_append]

theorem appendGroup_nodup (g : List (Key × List Sample)) (k : Key) (s : Sample)
    (hnd : (g.map Prod.fst).Nodup) : ((appendGroup g k s).map Prod.fst).Nodup := by
  rw [appendGroup_keys]
  by_cases hm : k ∈ g.map Prod.fst
  · rw [if_pos hm]; exact hnd
  · rw [if_neg hm]
    exact List.Nodup.append hnd (List.nodup_singleton k) (by simpa using hm)

theorem mem_appendGroup_ne (g : List (Key × List Sample)) (k : Key) (s : Sample)
    (k' : Key) (l' : List Sample) (hne : k' ≠ k) :
    (k', l') ∈ appendGroup g k s ↔ (k', l') ∈ g := by
  induction g with
  | nil => simp [appendGroup, hne]
  | cons p rest ih =>
    obtain ⟨k0, l0⟩ := p
    by_cases hk : k0 = k
    · subst hk
      simp only [appendGroup, if_true, List.mem_cons, Prod.mk.injEq, hne, false_and, false_or]
    · simp only [appendGroup, if_neg hk, List.mem_cons, ih]

theorem mem_appendGroup_self (g : List (Key × List Sample)) (k : Key) (s : Sample)
    (l' : List Sample) (hnd : (g.map Prod.fst).Nodup) :
    (k, l') ∈ appendGroup g k s ↔
      (∃ l, (k, l) ∈ g ∧ l' = l ++ [s]) ∨ (k ∉ g.map Prod.fst ∧ l' = [s]) := by
  induction g with
  | nil => simp [appendGroup]
  | cons p rest ih =>
    obtain ⟨k0, l0⟩ := p
    have hnd' : (rest.map Prod.fst).Nodup := (List.nodup_cons.mp hnd).2
    have hk0 : k0 ∉ rest.map Prod.fst := (List.nodup_cons.mp hnd).1
    by_cases hk : k0 = k
    · subst hk
      have hno : ∀ l, (k0, l) ∉ rest := fun l hl => hk0 (List.mem_map_of_mem Prod.fst hl)
      simp only [appendGroup, if_true, List.mem_cons, Prod.mk.injEq, true_and, List.map_cons,
        true_or, not_true_eq_false, false_and, or_false]
      constructor
      · rintro (h | h)
        · exact ⟨l0, Or.inl rfl, h⟩
        · exact absurd h (hno _)
      · rintro ⟨l, (h | h), hl⟩
        · subst h; exact Or.inl hl
        · exact absurd h (hno _)
    · have hk' : ¬ k = k0 := fun h => hk h.symm
      simp only [appendGroup, if_neg hk, List.mem_cons, Prod.mk.injEq, hk', false_and, false_or,
        ih hnd', List.map_cons]

theorem GroupsOf.not_mem_keys {g : List (Key × List Sample)} {evs : List Event}
    (h : GroupsOf g evs) (k : Key) : k ∉ g.map Prod.fst ↔ samplesOf evs k = [] := by
  constructor
  · intro hk
    by_contra hne
    exact hk (List.mem_map_of_mem Prod.fst ((h.2 k _).mpr ⟨rfl, hne⟩))
  · intro he hk
    obtain ⟨⟨k', l⟩, hmem, hfst⟩ := List.mem_map.mp hk
    simp only at hfst
    subst hfst
    have := (h.2 k' l).mp hmem
    exact this.2 (this.1.trans he)

theorem GroupsOf.step {g : List (Key × List Sample)} {evs : List Event} (h : GroupsOf g evs)
    (e : Event) : GroupsOf (appendGroup g e.key e.sample) (evs ++ [e]) := by
  refine ⟨appendGroup_nodup g _ _ h.1, ?_⟩
  intro k l
  rw [samplesOf_append]
  by_cases hk : e.key = k
  · subst hk
    rw [mem_appendGroup_self g _ _ _ h.1, if_pos rfl, h.not_mem_keys]
    constructor
    · rintro (⟨l0, hl0, rfl⟩ | ⟨hemp, rfl⟩)
      · rw [((h.2 _ _).mp hl0).1]; simp
      · rw [hemp]; simp
    · rintro ⟨rfl, -⟩
      by_cases hemp : samplesOf evs e.key = []
      · right; exact ⟨hemp, by rw [hemp]; rfl⟩
      · left; exact ⟨_, (h.2 _ _).mpr ⟨rfl, hemp⟩, rfl⟩
  · have hk' : k ≠ e.key := fun h => hk h.symm
    rw [mem_appendGroup_ne g _ _ _ _ hk', if_neg hk, List.append_nil]
    exact h.2 k l

theorem groupsOf_foldl (evs : List Event) :
    ∀ (g : List (Key × List Sample)) (pre : List Event), GroupsOf g pre →
      GroupsOf (evs.foldl (fun groups e => appendGroup groups e.key e.sample) g) (pre ++ evs) := by
  induction evs with
  | nil => intro g pre h; simpa using h
  | cons e rest ih =>
    intro g pre h
    have := ih _ _ (h.step e)
    simpa using this

theorem groupsOf_groupEvents (evs : List Event) : GroupsOf (groupEvents evs) evs := by
  have h0 : GroupsOf [] [] := ⟨by simp, by intro k l; simp [samplesOf]⟩
  simpa using groupsOf_foldl evs [] [] h0

/-! ## Statistics of a group -/

theorem scanGroup_foldl (l : List Sample) : ∀ acc : Int × List Int,
    l.foldl (fun acc p => (if p.status ≥ 400 then acc.1 + 1 else acc.1, acc.2 ++ [p.dur])) acc =
      (acc.1 + ((l.countP fun p => isError p.status : Nat) : Int), acc.2 ++ l.map Sample.dur) := by
  induction l with
  | nil => intro acc; simp
  | cons p rest ih =>
    intro acc
    rw [List.foldl_cons, ih]
    by_cases hp : p.status ≥ 400
    · have : isError p.status = true := by simp [isError, hp]
      simp [hp, List.countP_cons, this]
      omega
    · have : isError p.status = false := by simp [isError, hp]
      simp [hp, List.countP_cons, this]

theorem scanGroup_eq (l : List Sample) :
    scanGroup l = (((l.countP fun p => isError p.status : Nat) : Int), l.map Sample.dur) := by
  unfold scanGroup
  rw [scanGroup_foldl]
  simp

theorem pctIndex_lt {n p : Nat} (hn : 0 < n) (hp : p < 100) : pctIndex n p < n := by
  unfold pctIndex
  apply Nat.div_lt_of_lt_mul
  calc n * p < n * 100 := Nat.mul_lt_mul_of_pos_left hp hn
    _ = 100 * n := Nat.mul_comm _ _

theorem percentiles_eq (d : List Int) :
    percentiles d = some ((d[pctIndex d.length 50]?).getD 0, (d[pctIndex d.length 95]?).getD 0,
      (d[pctIndex d.length 99]?).getD 0) := by
  unfold percentiles
  by_cases hn : d.length > 0
  · have h50 := pctIndex_lt hn (show 50 < 100 by decide)
    have h95 := pctIndex_lt hn (show 95 < 100 by decide)
    have h99 := pctIndex_lt hn (show 99 < 100 by decide)
    simp [hn, List.getElem?_eq_getElem h50, List.getElem?_eq_getElem h95,
      List.getElem?_eq_getElem h99]
  · have h0 : d = [] := List.eq_nil_of_length_eq_zero (by omega)
    subst h0
    simp [pctIndex]

theorem groupRow_eq (h : Int) (k : Key) (l : List Sample) :
    groupRow h k l = some (statsRow h k l) := by
  unfold groupRow statsRow
  rw [scanGroup_eq]
  simp only [percentiles_eq]

theorem sortDurations_perm {a b : List Int} (hp : a.Perm b) :
    sortDurations a = sortDurations b := by
  unfold sortDurations
  apply List.eq_of_perm_of_sorted (r := (· ≤ ·))
  · exact (List.perm_insertionSort _ a).trans (hp.trans (List.perm_insertionSort _ b).symm)
  · exact List.sorted_insertionSort _ a
  · exact List.sorted_insertionSort _ b

theorem statsRow_perm (h : Int) (k : Key) {l l' : List Sample} (hp : l.Perm l') :
    statsRow h k l = statsRow h k l' := by
  unfold statsRow
  rw [sortDurations_perm (hp.map Sample.dur), hp.length_eq, hp.countP_eq]

/-! ## One upsert -/

theorem bucketMatches_iff (k : Key) (h : Int) (r : MetricBucket) :
    bucketMatches k h r = true ↔ r.UserID = k.UserID ∧ r.Project = k.Project ∧ r.BucketStart = h := by
  simp [bucketMatches, and_assoc]

theorem bucketMatches_overwrite (k : Key) (h : Int) (id : Nat) (row r : MetricBucket) :
    bucketMatches k h (if r.ID = id then overwriteDerived r row else r) = bucketMatches k h r := by
  by_cases hid : r.ID = id <;> simp [hid, bucketMatches, overwriteDerived]

theorem ID_overwrite (id : Nat) (row r : MetricBucket) :
    (if r.ID = id then overwriteDerived r row else r).ID = r.ID := by
  by_cases hid : r.ID = id <;> simp [hid, overwriteDerived]

theorem findBucket_mem {bs : List MetricBucket} {k : Key} {h : Int} {r : MetricBucket}
    (hf : findBucket bs k h = some r) : r ∈ bs ∧ bucketMatches k h r = true :=
  ⟨List.mem_of_find?_eq_some hf, List.find?_some hf⟩

theorem findBucket_none {bs : List MetricBucket} {k : Key} {h : Int} :
    findBucket bs k h = none ↔ ∀ r ∈ bs, bucketMatches k h r = false := by
  unfold findBucket
  rw [List.find?_eq_none]
  simp

theorem DB.WF.id_inj {db : DB} (hwf : db.WF) {x y : MetricBucket} (hx : x ∈ db.buckets)
    (hy : y ∈ db.buckets) (hid : x.ID = y.ID) : x = y := by
  have hnd : (db.buckets.map MetricBucket.ID).Nodup :=
    List.Pairwise.imp (fun h => Nat.ne_of_lt h) hwf.1
  exact List.inj_on_of_nodup_map hnd hx hy hid

theorem findBucket_updateBucket (db : DB) (id : Nat) (row : MetricBucket) (k : Key) (h : Int) :
    findBucket (updateBucket db id row).buckets k h =
      (findBucket db.buckets k h).map fun r => if r.ID = id then overwriteDerived r row else r := by
  unfold findBucket updateBucket
  simp only
  rw [List.find?_map]
  congr 2
  funext r
  exact bucketMatches_overwrite k h id row r

theorem findBucket_createBucket (db : DB) (row : MetricBucket) (k : Key) (h : Int) :
    findBucket (createBucket db row).buckets k h =
      (findBucket db.buckets k h).or
        (if bucketMatches k h row then some { row with ID := db.bucketSeq } else none) := by
  unfold findBucket createBucket
  simp only [List.find?_append, List.find?_cons, List.find?_nil]
  have : bucketMatches k h { row with ID := db.bucketSeq } = bucketMatches k h row := rfl
  rw [this]
  cases bucketMatches k h row <;> rfl

theorem WF_updateBucket {db : DB} (hwf : db.WF) (id : Nat) (row : MetricBucket) :
    (updateBucket db id row).WF := by
  unfold DB.WF updateBucket
  simp only [List.map_map]
  have hmap : (MetricBucket.ID ∘ fun r => if r.ID = id then overwriteDerived r row else r) =
      MetricBucket.ID := by
    funext r; exact ID_overwrite id row r
  rw [hmap]
  refine ⟨hwf.1, ?_⟩
  intro r hr
  obtain ⟨r0, hr0, rfl⟩ := List.mem_map.mp hr
  rw [ID_overwrite]
  exact hwf.2 r0 hr0

theorem WF_createBucket {db : DB} (hwf : db.WF) (row : MetricBucket) :
    (createBucket db row).WF := by
  unfold DB.WF createBucket
  simp only [List.map_append, List.map_cons, List.map_nil]
  constructor
  · rw [List.pairwise_append]
    refine ⟨hwf.1, List.pairwise_singleton _ _, ?_⟩
    intro a ha b hb
    obtain ⟨r, hr, rfl⟩ := List.mem_map.mp ha
    rw [List.mem_singleton] at hb
    subst hb
    exact hwf.2 r hr
  · intro r hr
    rcases List.mem_append.mp hr with hr | hr
    · exact Nat.lt_succ_of_lt (hwf.2 r hr)
    · rw [List.mem_singleton] at hr
      subst hr
      exact Nat.lt_succ_self _

theorem statsRow_matches (h : Int) (k : Key) (l : List Sample) (k' : Key) (h' : Int) :
    bucketMatches k' h' (statsRow h k l) = true ↔ k' = k ∧ h' = h := by
  rw [bucketMatches_iff]
  cases k; cases k'
  simp [statsRow]
  constructor
  · rintro ⟨rfl, rfl, rfl⟩; exact ⟨⟨rfl, rfl⟩, rfl⟩
  · rintro ⟨⟨rfl, rfl⟩, rfl⟩; exact ⟨rfl, rfl, rfl⟩

theorem upsertGroup_noFaults (h : Int) (db : DB) (k : Key) (l : List Sample) :
    upsertGroup noFaults h db k l = (upsertDB h db k l, Outcome.ok) := by
  unfold upsertGroup upsertDB
  rw [groupRow_eq]
  cases findBucket db.buckets k h <;> simp [noFaults]

theorem WF_upsertDB {db : DB} (hwf : db.WF) (h : Int) (k : Key) (l : List Sample) :
    (upsertDB h db k l).WF := by
  unfold upsertDB
  cases findBucket db.buckets k h with
  | none => exact WF_createBucket hwf _
  | some ex => exact WF_updateBucket hwf _ _

theorem events_upsertDB (db : DB) (h : Int) (k : Key) (l : List Sample) :
    (upsertDB h db k l).events = db.events ∧ (upsertDB h db k l).eventSeq = db.eventSeq := by
  unfold upsertDB
  cases findBucket db.buckets k h <;> exact ⟨rfl, rfl⟩

/-- After an upsert the lookup of the group finds a row with the computed
statistics; it is the row found before when there was one. -/
theorem findBucket_upsertDB_self (db : DB) (h : Int) (k : Key) (l : List Sample) :
    ∃ r, findBucket (upsertDB h db k l).buckets k h = some r ∧
      r.derived = (statsRow h k l).derived ∧
      (∀ old, findBucket db.buckets k h = some old → r.ID = old.ID ∧
        (upsertDB h db k l).buckets.length = db.buckets.length) ∧
      (findBucket db.buckets k h = none → r.ID = db.bucketSeq ∧
        (upsertDB h db k l).buckets.length = db.buckets.length + 1) := by
  unfold upsertDB
  cases hf : findBucket db.buckets k h with
  | none =>
    have hm : bucketMatches k h (statsRow h k l) = true := (statsRow_matches h k l k h).mpr ⟨rfl, rfl⟩
    refine ⟨{ statsRow h k l with ID := db.bucketSeq }, ?_, rfl, ?_, ?_⟩
    · simp only [findBucket_createBucket, hf, hm, if_true]; rfl
    · intro old hold; simp at hold
    · intro _; exact ⟨rfl, by simp [createBucket]⟩
  | some ex =>
    refine ⟨overwriteDerived ex (statsRow h k l), ?_, rfl, ?_, ?_⟩
    · simp only [findBucket_updateBucket, hf, Option.map_some', if_true]
    · intro old hold
      simp only [Option.some.injEq] at hold
      subst hold
      exact ⟨rfl, by simp [updateBucket]⟩
    · intro hn; simp at hn

/-- An upsert leaves the lookup under every other (group, hour) as it was. -/
theorem findBucket_upsertDB_other {db : DB} (hwf : db.WF) (h : Int) (k : Key) (l : List Sample)
    (k' : Key) (h' : Int) (hne : ¬ (k' = k ∧ h' = h)) :
    findBucket (upsertDB h db k l).buckets k' h' = findBucket db.buckets k' h' := by
  unfold upsertDB
  cases hf : findBucket db.buckets k h with
  | none =>
    have hm : bucketMatches k' h' (statsRow h k l) = false := by
      rw [Bool.eq_false_iff]; intro hc; exact hne ((statsRow_matches h k l k' h').mp hc)
    simp only [findBucket_createBucket, hm]
    cases findBucket db.buckets k' h' <;> rfl
  | some ex =>
    simp only [findBucket_updateBucket]
    cases hf' : findBucket db.buckets k' h' with
    | none => rfl
    | some r =>
      have hr := findBucket_mem hf'
      have hex := findBucket_mem hf
      by_cases hid : r.ID = ex.ID
      · exfalso
        have heq := hwf.id_inj hr.1 hex.1 hid
        subst heq
        have h1 := (bucketMatches_iff k' h' r).mp hr.2
        have h2 := (bucketMatches_iff k h r).mp hex.2
        apply hne
        cases k; cases k'
        simp only [Key.mk.injEq]
        simp only at h1 h2
        exact ⟨⟨h1.1.symm.trans h2.1, h1.2.1.symm.trans h2.2.1⟩, h1.2.2.symm.trans h2.2.2⟩
      · simp [hid]

/-- An upsert of statistics that the row already holds changes nothing. -/
theorem upsertDB_noop {db : DB} (hwf : db.WF) (h : Int) (k : Key) (l : List Sample)
    {r : MetricBucket} (hf : findBucket db.buckets k h = some r)
    (hd : r.derived = (statsRow h k l).derived) : upsertDB h db k l = db := by
  unfold upsertDB
  rw [hf]
  simp only [updateBucket]
  have hmap : (db.buckets.map fun x => if x.ID = r.ID then overwriteDerived x (statsRow h k l) else x)
      = db.buckets := by
    conv_rhs => rw [← List.map_id db.buckets]
    apply List.map_congr_left
    intro x hx
    by_cases hid : x.ID = r.ID
    · have hxr := hwf.id_inj hx (findBucket_mem hf).1 hid
      subst hxr
      simp only [if_true, id]
      simp only [MetricBucket.derived, Prod.mk.injEq] at hd
      cases x
      simp only [overwriteDerived, MetricBucket.mk.injEq, true_and]
      simp only at hd
      exact ⟨hd.1.symm, hd.2.1.symm, hd.2.2.1.symm, hd.2.2.2.1.symm, hd.2.2.2.2.symm⟩
    · simp [hid]
  rw [hmap]

/-! ## The loop over the groups -/

theorem upsertGroups_noFaults (h : Int) (gs : List (Key × List Sample)) :
    ∀ db, upsertGroups noFaults h gs db = (upsertAll h gs db, Outcome.ok) := by
  induction gs with
  | nil => intro db; rfl
  | cons p rest ih =>
    intro db
    obtain ⟨k, l⟩ := p
    simp only [upsertGroups, upsertGroup_noFaults, upsertAll, ih]

theorem WF_upsertAll (h : Int) (gs : List (Key × List Sample)) :
    ∀ db : DB, db.WF → (upsertAll h gs db).WF := by
  induction gs with
  | nil => intro db hwf; exact hwf
  | cons p rest ih =>
    intro db hwf
    exact ih _ (WF_upsertDB hwf h p.1 p.2)

theorem events_upsertAll (h : Int) (gs : List (Key × List Sample)) :
    ∀ db : DB, (upsertAll h gs db).events = db.events ∧
      (upsertAll h gs db).eventSeq = db.eventSeq := by
  induction gs with
  | nil => intro db; exact ⟨rfl, rfl⟩
  | cons p rest ih =>
    intro db
    have h1 := ih (upsertDB h db p.1 p.2)
    have h2 := events_upsertDB db h p.1 p.2
    exact ⟨h1.1.trans h2.1, h1.2.trans h2.2⟩

/-- The loop leaves the lookup under (k', h') as it was when h' is another hour
or k' is not among the groups. -/
theorem findBucket_upsertAll_other (h : Int) (gs : List (Key × List Sample)) (k' : Key) (h' : Int)
    (hne : h' ≠ h ∨ k' ∉ gs.map Prod.fst) :
    ∀ db : DB, db.WF →
      findBucket (upsertAll h gs db).buckets k' h' = findBucket db.buckets k' h' := by
  induction gs with
  | nil => intro db _; rfl
  | cons p rest ih =>
    intro db hwf
    obtain ⟨k, l⟩ := p
    have hne' : h' ≠ h ∨ k' ∉ rest.map Prod.fst := by
      rcases hne with hh | hk
      · exact Or.inl hh
      · exact Or.inr fun hm => hk (List.mem_cons_of_mem _ hm)
    have hstep : ¬ (k' = k ∧ h' = h) := by
      rintro ⟨rfl, rfl⟩
      rcases hne with hh | hk
      · exact hh rfl
      · exact hk (List.mem_cons_self _ _)
    simp only [upsertAll]
    rw [ih hne' _ (WF_upsertDB hwf h k l), findBucket_upsertDB_other hwf h k l k' h' hstep]

/-- After the loop the lookup of every group finds a row with the statistics
of the group, the row found before the loop when there was one. -/
theorem findBucket_upsertAll_mem (h : Int) (gs : List (Key × List Sample)) :
    ∀ db : DB, db.WF → (gs.map Prod.fst).Nodup → ∀ k l, (k, l) ∈ gs →
      ∃ r, findBucket (upsertAll h gs db).buckets k h = some r ∧
        r.derived = (statsRow h k l).derived ∧
        (∀ old, findBucket db.buckets k h = some old → r.ID = old.ID) := by
  induction gs with
  | nil => intro db _ _ k l hm; simp at hm
  | cons p rest ih =>
    intro db hwf hnd k l hm
    obtain ⟨k0, l0⟩ := p
    have hnd' : (rest.map Prod.fst).Nodup := (List.nodup_cons.mp hnd).2
    have hk0 : k0 ∉ rest.map Prod.fst := (List.nodup_cons.mp hnd).1
    have hwf1 := WF_upsertDB hwf h k0 l0
    simp only [upsertAll]
    rcases List.mem_cons.mp hm with heq | hrest
    · simp only [Prod.mk.injEq] at heq
      obtain ⟨rfl, rfl⟩ := heq
      obtain ⟨r, hr, hd, hold, -⟩ := findBucket_upsertDB_self db h k l
      refine ⟨r, ?_, hd, fun old ho => (hold old ho).1⟩
      rw [findBucket_upsertAll_other h rest k h (Or.inr hk0) _ hwf1]
      exact hr
    · obtain ⟨r, hr, hd, hold⟩ := ih _ hwf1 hnd' k l hrest
      refine ⟨r, hr, hd, ?_⟩
      intro old ho
      apply hold
      have hkne : ¬ (k = k0 ∧ h = h) := by
        rintro ⟨rfl, -⟩
        exact hk0 (List.mem_map_of_mem Prod.fst hrest)
      rw [findBucket_upsertDB_other hwf h k0 l0 k h hkne]
      exact ho

/-- A loop over groups whose rows already hold their statistics changes nothing. -/
theorem upsertAll_noop (h : Int) (gs : List (Key × List Sample)) (db : DB) (hwf : db.WF)
    (hall : ∀ k l, (k, l) ∈ gs → ∃ r, findBucket db.buckets k h = some r ∧
      r.derived = (statsRow h k l).derived) : upsertAll h gs db = db := by
  induction gs with
  | nil => rfl
  | cons p rest ih =>
    obtain ⟨k, l⟩ := p
    obtain ⟨r, hr, hd⟩ := hall k l (List.mem_cons_self _ _)
    simp only [upsertAll]
    rw [upsertDB_noop hwf h k l hr hd]
    exact ih fun k' l' hm => hall k' l' (List.mem_cons_of_mem _ hm)

/-! ## The groups of a window -/

theorem key_selectColumns (e : Event) : (selectColumns e).key = e.key := rfl

theorem sample_selectColumns (e : Event) : (selectColumns e).sample = e.sample := rfl

/-- The samples grouped under `k` are, up to order, those of the events of the
group in the store. -/
theorem samplesOf_windowEvents {o : AggOrders} (hv : o.Valid) (db : DB) (h : Int) (k : Key) :
    (samplesOf (windowEvents o db h) k).Perm ((groupOf db h k).map Event.sample) := by
  unfold samplesOf windowEvents groupOf
  rw [List.filter_map, List.map_map]
  have h1 : ((o.scan (db.events.filter (inWindow h))).filter
      ((fun e => decide (e.key = k)) ∘ selectColumns)).Perm
      ((db.events.filter (inWindow h)).filter fun e => decide (e.key = k)) :=
    (hv.1 _).filter _
  have h2 : (db.events.filter (inWindow h)).filter (fun e => decide (e.key = k)) =
      db.events.filter fun e => inWindow h e && decide (e.key = k) := by
    rw [List.filter_filter]
    congr 1
    funext e
    exact Bool.and_comm _ _
  rw [← h2]
  exact h1.map _

/-- Every entry the loop visits is a group of the window: its key is met once,
and its statistics are those of the events of the group. -/
theorem range_groups {o : AggOrders} (hv : o.Valid) (db : DB) (h : Int) :
    ((o.range (groupEvents (windowEvents o db h))).map Prod.fst).Nodup ∧
    (∀ k l, (k, l) ∈ o.range (groupEvents (windowEvents o db h)) →
      statsRow h k l = statsRow h k ((groupOf db h k).map Event.sample) ∧ groupOf db h k ≠ []) ∧
    (∀ k, groupOf db h k ≠ [] →
      ∃ l, (k, l) ∈ o.range (groupEvents (windowEvents o db h))) := by
  have hg := groupsOf_groupEvents (windowEvents o db h)
  have hp := hv.2 (groupEvents (windowEvents o db h))
  refine ⟨(hp.map Prod.fst).nodup_iff.mpr hg.1, ?_, ?_⟩
  · intro k l hm
    have hm' := (hg.2 k l).mp (hp.mem_iff.mp hm)
    have hperm := samplesOf_windowEvents hv db h k
    rw [← hm'.1] at hperm
    refine ⟨statsRow_perm h k hperm, ?_⟩
    intro hemp
    rw [hemp] at hperm
    exact hm'.2 (List.Perm.eq_nil (by simpa using hperm))
  · intro k hne
    have hperm := samplesOf_windowEvents hv db h k
    have hne' : samplesOf (windowEvents o db h) k ≠ [] := by
      intro hemp
      rw [hemp] at hperm
      have := (List.Perm.nil_eq hperm)
      exact hne (List.map_eq_nil_iff.mp this.symm)
    exact ⟨_, hp.mem_iff.mpr ((hg.2 k _).mpr ⟨rfl, hne'⟩)⟩

theorem runAggregationOnce_noFaults (o : AggOrders) (db : DB) (h : Int) :
    runAggregationOnce noFaults o db h =
      (upsertAll h (o.range (groupEvents (windowEvents o db h))) db, Outcome.ok) := by
  unfold runAggregationOnce
  simp only [noFaults, Bool.false_eq_true, if_false]
  exact upsertGroups_noFaults h _ db

/-! ## Aggregation: the claims -/

theorem plainOrders_valid : plainOrders.Valid :=
  ⟨fun l => List.Perm.refl l, fun g => List.Perm.refl g⟩

theorem sorted_eq_sortDurations {s d : List Int} (hs : s.Sorted (· ≤ ·)) (hp : s.Perm d) :
    s = sortDurations d := by
  unfold sortDurations
  exact List.eq_of_perm_of_sorted (hp.trans (List.perm_insertionSort _ d).symm) hs
    (List.sorted_insertionSort _ d)

theorem map_dur_sample (l : List Event) :
    (l.map Event.sample).map Sample.dur = l.map Event.DurationMs := by
  rw [List.map_map]; rfl

/-- C1. In a run without database errors, for every non-empty group of the
window the bucket found under (tenant, project, hour) holds as p50, p95 and p99
the elements of index n*50/100, n*95/100 and n*99/100 of the ascending
rearrangement s of the group's durations, n being the group size. -/
theorem C1_percentiles_stored (o : AggOrders) (hv : o.Valid) (db : DB) (hwf : db.WF) (h : Int)
    (k : Key) (hne : groupOf db h k ≠ []) (s : List Int) (hs : s.Sorted (· ≤ ·))
    (hperm : s.Perm ((groupOf db h k).map Event.DurationMs)) :
    (runAggregationOnce noFaults o db h).2 = Outcome.ok ∧
    ∃ r, findBucket (runAggregationOnce noFaults o db h).1.buckets k h = some r ∧
      s[(groupOf db h k).length * 50 / 100]? = some r.DurationP50Ms ∧
      s[(groupOf db h k).length * 95 / 100]? = some r.DurationP95Ms ∧
      s[(groupOf db h k).length * 99 / 100]? = some r.DurationP99Ms := by
  rw [runAggregationOnce_noFaults]
  refine ⟨rfl, ?_⟩
  obtain ⟨hnd, hstats, hex⟩ := range_groups hv db h
  obtain ⟨l, hl⟩ := hex k hne
  obtain ⟨r, hr, hd, -⟩ := findBucket_upsertAll_mem h _ db hwf hnd k l hl
  rw [(hstats k l hl).1] at hd
  have hsd : sortDurations (((groupOf db h k).map Event.sample).map Sample.dur) = s := by
    rw [map_dur_sample]; exact (sorted_eq_sortDurations hs hperm).symm
  have hlen : s.length = (groupOf db h k).length := by
    rw [hperm.length_eq, List.length_map]
  have hn : 0 < s.length := by
    rw [hlen]; exact List.length_pos.mpr hne
  simp only [MetricBucket.derived, statsRow, hsd, Prod.mk.injEq] at hd
  refine ⟨r, hr, ?_, ?_, ?_⟩
  · have hi := pctIndex_lt hn (show 50 < 100 by decide)
    rw [hd.2.2.1, ← hlen]
    show s[pctIndex s.length 50]? = _
    rw [List.getElem?_eq_getElem hi]; rfl
  · have hi := pctIndex_lt hn (show 95 < 100 by decide)
    rw [hd.2.2.2.1, ← hlen]
    show s[pctIndex s.length 95]? = _
    rw [List.getElem?_eq_getElem hi]; rfl
  · have hi := pctIndex_lt hn (show 99 < 100 by decide)
    rw [hd.2.2.2.2, ← hlen]
    show s[pctIndex s.length 99]? = _
    rw [List.getElem?_eq_getElem hi]; rfl

/-- Witness of C1: for the durations 10, 20, 30, 40, 50 of a group of five the
stored percentiles are 30, 50 and 50. -/
theorem C1_percentiles_stored_witness :
    ∃ r, findBucket (runAggregationOnce noFaults plainOrders dbFive 0).1.buckets keyShop 0 = some r ∧
      r.DurationP50Ms = 30 ∧ r.DurationP95Ms = 50 ∧ r.DurationP99Ms = 50 := by
  obtain ⟨-, r, hr, h50, h95, h99⟩ :=
    C1_percentiles_stored plainOrders plainOrders_valid dbFive (by decide) 0 keyShop (by decide)
      [10, 20, 30, 40, 50] (by decide) (by decide)
  have hn : (groupOf dbFive 0 keyShop).length = 5 := by decide
  rw [hn] at h50 h95 h99
  refine ⟨r, hr, ?_, ?_, ?_⟩
  · simpa using h50.symm
  · simpa using h95.symm
  · simpa using h99.symm

theorem windowEvents_congr (o : AggOrders) {db db' : DB} (he : db'.events = db.events) (h : Int) :
    windowEvents o db' h = windowEvents o db h := by
  unfold windowEvents; rw [he]

theorem groupOf_congr {db db' : DB} (he : db'.events = db.events) (h : Int) (k : Key) :
    groupOf db' h k = groupOf db h k := by
  unfold groupOf; rw [he]

/-- C2. Without database errors, a second aggregation of the same hour over
the same events leaves the database exactly as the first left it, whatever the
orders in which rows are returned and groups visited in the two runs. -/
theorem C2_idempotent (o₁ o₂ : AggOrders) (hv₁ : o₁.Valid) (hv₂ : o₂.Valid) (db : DB)
    (hwf : db.WF) (h : Int) :
    runAggregationOnce noFaults o₂ (runAggregationOnce noFaults o₁ db h).1 h =
      ((runAggregationOnce noFaults o₁ db h).1, Outcome.ok) := by
  rw [runAggregationOnce_noFaults o₁, runAggregationOnce_noFaults o₂]
  simp only
  have hev := (events_upsertAll h (o₁.range (groupEvents (windowEvents o₁ db h))) db).1
  rw [windowEvents_congr o₂ hev h]
  obtain ⟨hnd₁, hstats₁, hex₁⟩ := range_groups hv₁ db h
  obtain ⟨-, hstats₂, -⟩ := range_groups hv₂ db h
  have hwf₁ := WF_upsertAll h (o₁.range (groupEvents (windowEvents o₁ db h))) db hwf
  rw [upsertAll_noop h _ _ hwf₁]
  intro k l hl
  obtain ⟨hs₂, hne⟩ := hstats₂ k l hl
  obtain ⟨l₁, hl₁⟩ := hex₁ k hne
  obtain ⟨r, hr, hd, -⟩ := findBucket_upsertAll_mem h _ db hwf hnd₁ k l₁ hl₁
  refine ⟨r, hr, ?_⟩
  rw [hd, (hstats₁ k l₁ hl₁).1, hs₂]

/-- Witness of C2, on a store with two groups and a stale row. -/
theorem C2_idempotent_witness :
    runAggregationOnce noFaults plainOrders (runAggregationOnce noFaults plainOrders dbTwo 0).1 0 =
      ((runAggregationOnce noFaults plainOrders dbTwo 0).1, Outcome.ok) :=
  C2_idempotent plainOrders plainOrders plainOrders_valid plainOrders_valid dbTwo (by decide) 0

theorem findBucket_upsertDB_isSome (db : DB) (h : Int) (k : Key) (l : List Sample) (k' : Key)
    (h' : Int) (hs : (findBucket db.buckets k' h').isSome = true) :
    (findBucket (upsertDB h db k l).buckets k' h').isSome = true := by
  unfold upsertDB
  cases findBucket db.buckets k h with
  | none =>
    rw [findBucket_createBucket]
    cases hf : findBucket db.buckets k' h' with
    | none => rw [hf] at hs; simp at hs
    | some r => rfl
  | some ex =>
    rw [findBucket_updateBucket]
    cases hf : findBucket db.buckets k' h' with
    | none => rw [hf] at hs; simp at hs
    | some r => rfl

/-- A loop over groups that all have a row adds no row. -/
theorem length_upsertAll_of_found (h : Int) (gs : List (Key × List Sample)) :
    ∀ db : DB, (∀ k l, (k, l) ∈ gs → (findBucket db.buckets k h).isSome = true) →
      (upsertAll h gs db).buckets.length = db.buckets.length := by
  induction gs with
  | nil => intro db _; rfl
  | cons p rest ih =>
    intro db hall
    obtain ⟨k, l⟩ := p
    simp only [upsertAll]
    rw [ih]
    · have hk := hall k l (List.mem_cons_self _ _)
      cases hf : findBucket db.buckets k h with
      | none => rw [hf] at hk; simp at hk
      | some ex => simp [upsertDB, hf, updateBucket]
    · intro k' l' hm
      exact findBucket_upsertDB_isSome db h k l k' h (hall k' l' (List.mem_cons_of_mem _ hm))

theorem autoCreateTime_fields (t : Int) (r : Event) :
    (autoCreateTime t r).ID = r.ID ∧ (autoCreateTime t r).ExpiresAt = r.ExpiresAt ∧
    (autoCreateTime t r).UserID = r.UserID ∧ (autoCreateTime t r).Project = r.Project ∧
    (autoCreateTime t r).Route = r.Route ∧ (autoCreateTime t r).Method = r.Method ∧
    (autoCreateTime t r).Status = r.Status ∧ (autoCreateTime t r).DurationMs = r.DurationMs ∧
    (autoCreateTime t r).RemoteIP = r.RemoteIP ∧ (autoCreateTime t r).Attributes = r.Attributes := by
  unfold autoCreateTime
  split <;> simp

theorem autoCreateTime_createdAt (t : Int) (r : Event) :
    (autoCreateTime t r).CreatedAt = if r.CreatedAt = zeroTime then t else r.CreatedAt := by
  unfold autoCreateTime
  split <;> rfl

theorem groupOf_createEvents (db : DB) (t : Int) (e : Event) (h : Int) (k : Key) :
    groupOf (createEvents db t [e]) h k =
      groupOf db h k ++
        (if inWindow h (autoCreateTime t e) = true ∧ (autoCreateTime t e).key = k then
          [{ autoCreateTime t e with ID := db.eventSeq }] else []) := by
  unfold groupOf createEvents
  simp only [List.map_cons, List.map_nil, assignIDs, List.filter_append]
  congr 1
  generalize autoCreateTime t e = s
  have h1 : inWindow h { s with ID := db.eventSeq } = inWindow h s := rfl
  have h2 : ({ s with ID := db.eventSeq } : Event).key = s.key := rfl
  by_cases hc : inWindow h s = true ∧ s.key = k
  · simp [List.filter_cons, h1, h2, hc.1, hc.2]
  · rw [if_neg hc]
    rw [List.filter_cons, h1, h2]
    simp only [List.filter_nil]
    rw [if_neg]
    simpa using hc

theorem WF_createEvents {db : DB} (hwf : db.WF) (t : Int) (recs : List Event) :
    (createEvents db t recs).WF :=
  hwf

theorem derived_statsRow_counts (h : Int) (k : Key) (l : List Sample) {r : MetricBucket}
    (hd : r.derived = (statsRow h k l).derived) :
    r.TotalCount = (l.length : Int) ∧
      r.ErrorCount = ((l.countP fun p => isError p.status : Nat) : Int) := by
  simp only [MetricBucket.derived, statsRow, Prod.mk.injEq] at hd
  exact ⟨hd.1, hd.2.1⟩

/-- C3. Let an hour be aggregated, an event be inserted that is stored with a
creation time in that hour (its own, or the time of the insert when it carries
the zero time), and the hour be aggregated again (no database errors). The
bucket of the event's group then holds the statistics of the enlarged group:
the old events of the group followed by the new one, so the total is the old
group size plus one and the error count grows by one exactly when the new
status is at least 400. When the group had a row after the first run, it is
that row (same primary key) that holds the new values and the table has gained
no row; when the group was not empty, the row existed and held the old counts. -/
theorem C3_backfill_corrects (o₁ o₂ : AggOrders) (hv₁ : o₁.Valid) (hv₂ : o₂.Valid) (db : DB)
    (hwf : db.WF) (h : Int) (insertTime : Int) (e : Event)
    (hin : inWindow h (autoCreateTime insertTime e) = true) :
    ∃ r,
      findBucket (runAggregationOnce noFaults o₂
        (createEvents (runAggregationOnce noFaults o₁ db h).1 insertTime [e]) h).1.buckets
          e.key h = some r ∧
      r.derived = (statsRow h e.key
        ((groupOf db h e.key ++
          [{ autoCreateTime insertTime e with ID := db.eventSeq }]).map Event.sample)).derived ∧
      r.TotalCount = ((groupOf db h e.key).length : Int) + 1 ∧
      r.ErrorCount = (((groupOf db h e.key).countP fun x => isError x.Status : Nat) : Int) +
        (if e.Status ≥ 400 then 1 else 0) ∧
      (∀ r₀, findBucket (runAggregationOnce noFaults o₁ db h).1.buckets e.key h = some r₀ →
        r.ID = r₀.ID ∧
        (runAggregationOnce noFaults o₂
          (createEvents (runAggregationOnce noFaults o₁ db h).1 insertTime [e]) h).1.buckets.length =
          (runAggregationOnce noFaults o₁ db h).1.buckets.length ∧
        (groupOf db h e.key ≠ [] →
          r.TotalCount = r₀.TotalCount + 1 ∧
          r.ErrorCount = r₀.ErrorCount + (if e.Status ≥ 400 then 1 else 0))) ∧
      (groupOf db h e.key ≠ [] →
        ∃ r₀, findBucket (runAggregationOnce noFaults o₁ db h).1.buckets e.key h = some r₀) := by
  rw [runAggregationOnce_noFaults o₁, runAggregationOnce_noFaults o₂]
  simp only
  generalize hdb₁ : upsertAll h (o₁.range (groupEvents (windowEvents o₁ db h))) db = db₁
  have hev₁ : db₁.events = db.events ∧ db₁.eventSeq = db.eventSeq := by
    rw [← hdb₁]; exact events_upsertAll h _ db
  have hwf₁ : db₁.WF := by rw [← hdb₁]; exact WF_upsertAll h _ db hwf
  obtain ⟨hnd₁, hstats₁, hex₁⟩ := range_groups hv₁ db h
  have hwf₂ : (createEvents db₁ insertTime [e]).WF := WF_createEvents hwf₁ insertTime [e]
  obtain ⟨hnd₂, hstats₂, hex₂⟩ := range_groups hv₂ (createEvents db₁ insertTime [e]) h
  -- the stored event
  have hkey : (autoCreateTime insertTime e).key = e.key := by
    have hf := autoCreateTime_fields insertTime e
    unfold Event.key
    rw [hf.2.2.1, hf.2.2.2.1]
  have hst : (autoCreateTime insertTime e).Status = e.Status :=
    (autoCreateTime_fields insertTime e).2.2.2.2.2.2.1
  have hgrp₀ : ∀ k, groupOf (createEvents db₁ insertTime [e]) h k =
      groupOf db₁ h k ++
        (if inWindow h (autoCreateTime insertTime e) = true ∧
            (autoCreateTime insertTime e).key = k then
          [{ autoCreateTime insertTime e with ID := db₁.eventSeq }] else []) :=
    fun k => groupOf_createEvents db₁ insertTime e h k
  generalize autoCreateTime insertTime e = s at hin hkey hst hgrp₀ ⊢
  -- the groups of the enlarged store
  have hgrp : ∀ k, groupOf (createEvents db₁ insertTime [e]) h k =
      groupOf db h k ++
        (if inWindow h s = true ∧ e.key = k then [{ s with ID := db.eventSeq }] else []) := by
    intro k
    rw [hgrp₀, groupOf_congr hev₁.1, hev₁.2, hkey]
  have hgrpe : groupOf (createEvents db₁ insertTime [e]) h e.key =
      groupOf db h e.key ++ [{ s with ID := db.eventSeq }] := by
    rw [hgrp, if_pos ⟨hin, rfl⟩]
  have hne₂ : groupOf (createEvents db₁ insertTime [e]) h e.key ≠ [] := by
    rw [hgrpe]; simp
  -- what the first run left for a non-empty group
  have hfirst : ∀ k, groupOf db h k ≠ [] → ∃ r₀, findBucket db₁.buckets k h = some r₀ ∧
      r₀.derived = (statsRow h k ((groupOf db h k).map Event.sample)).derived := by
    intro k hk
    obtain ⟨l₁, hl₁⟩ := hex₁ k hk
    obtain ⟨r₀, hr₀, hd₀, -⟩ := findBucket_upsertAll_mem h _ db hwf hnd₁ k l₁ hl₁
    rw [hdb₁] at hr₀
    exact ⟨r₀, hr₀, by rw [hd₀, (hstats₁ k l₁ hl₁).1]⟩
  obtain ⟨l₂, hl₂⟩ := hex₂ e.key hne₂
  obtain ⟨r, hr, hd, hold⟩ := findBucket_upsertAll_mem h _ _ hwf₂ hnd₂ e.key l₂ hl₂
  rw [(hstats₂ e.key l₂ hl₂).1, hgrpe] at hd
  have hcounts := derived_statsRow_counts h e.key _ hd
  have htot : r.TotalCount = ((groupOf db h e.key).length : Int) + 1 := by
    rw [hcounts.1]; simp
  have herr : r.ErrorCount = (((groupOf db h e.key).countP fun x => isError x.Status : Nat) : Int) +
      (if e.Status ≥ 400 then 1 else 0) := by
    rw [hcounts.2, List.map_append, List.countP_append, List.countP_map]
    have h1 : ((fun p : Sample => isError p.status) ∘ Event.sample) =
        fun x : Event => isError x.Status := rfl
    rw [h1]
    by_cases hs : e.Status ≥ 400
    · simp [List.countP_cons, Event.sample, isError, hs, hst]
    · simp [List.countP_cons, Event.sample, isError, hs, hst]
  refine ⟨r, hr, hd, htot, herr, ?_, fun hk => ?_⟩
  · intro r₀ hr₀
    refine ⟨hold r₀ hr₀, ?_, ?_⟩
    · apply length_upsertAll_of_found
      intro k l hl
      by_cases hk : e.key = k
      · subst hk
        show (findBucket db₁.buckets e.key h).isSome = true
        rw [hr₀]; rfl
      · have hkne : groupOf db h k ≠ [] := by
          have := (hstats₂ k l hl).2
          rw [hgrp, if_neg (fun hc => hk hc.2), List.append_nil] at this
          exact this
        obtain ⟨r₁, hr₁, -⟩ := hfirst k hkne
        show (findBucket db₁.buckets k h).isSome = true
        rw [hr₁]; rfl
    · intro hk
      obtain ⟨r₁, hr₁, hd₁⟩ := hfirst e.key hk
      rw [hr₀] at hr₁
      simp only [Option.some.injEq] at hr₁
      subst hr₁
      have hc₀ := derived_statsRow_counts h e.key _ hd₁
      rw [htot, herr, hc₀.1, hc₀.2, List.length_map, List.countP_map]
      exact ⟨rfl, rfl⟩
  · obtain ⟨r₀, hr₀, -⟩ := hfirst e.key hk
    exact ⟨r₀, hr₀⟩

/-- Witness of C3: a sixth event with status 500 backfilled into the group of
five events, two of them errors, gives a total of 6 and 3 errors. -/
theorem C3_backfill_corrects_witness :
    ∃ r,
      findBucket (runAggregationOnce noFaults plainOrders
        (createEvents (runAggregationOnce noFaults plainOrders dbFive 0).1 500
          [mkEvent 0 100 "1" "shop" 500 60]) 0).1.buckets keyShop 0 = some r ∧
      r.TotalCount = 6 ∧ r.ErrorCount = 3 := by
  obtain ⟨r, hr, -, htot, herr, -, -⟩ :=
    C3_backfill_corrects plainOrders plainOrders plainOrders_valid plainOrders_valid dbFive
      (by decide) 0 500 (mkEvent 0 100 "1" "shop" 500 60) (by decide)
  refine ⟨r, hr, ?_, ?_⟩
  · rw [htot]; decide
  · rw [herr]; decide

/-! ## Aggregation under database errors -/

theorem upsertGroup_eq (f : AggFaults) (h : Int) (db : DB) (k : Key) (l : List Sample) :
    upsertGroup f h db k l =
      if persistFails f db h k then (db, Outcome.error) else (upsertDB h db k l, Outcome.ok) := by
  unfold upsertGroup persistFails upsertDB
  rw [groupRow_eq]
  simp only
  cases f.firstErr k
  · cases findBucket db.buckets k h with
    | none => cases f.createErr k <;> simp
    | some ex => cases f.updatesErr k <;> simp
  · simp

theorem persistFails_congr (f : AggFaults) {db db' : DB} (h : Int) (k : Key)
    (hf : findBucket db'.buckets k h = findBucket db.buckets k h) :
    persistFails f db' h k = persistFails f db h k := by
  unfold persistFails; rw [hf]

/-- The loop stops at the first group whose persistence fails: the groups
before it have been upserted, nothing else has been done. -/
theorem upsertGroups_stops (f : AggFaults) (h : Int) (k : Key) (l : List Sample)
    (post : List (Key × List Sample)) :
    ∀ (pre : List (Key × List Sample)) (db : DB), db.WF →
      ((pre ++ (k, l) :: post).map Prod.fst).Nodup →
      (∀ p ∈ pre, persistFails f db h p.1 = false) → persistFails f db h k = true →
      upsertGroups f h (pre ++ (k, l) :: post) db = (upsertAll h pre db, Outcome.error) := by
  intro pre
  induction pre with
  | nil =>
    intro db _ _ _ hk
    simp only [List.nil_append, upsertGroups, upsertGroup_eq, hk, if_true, upsertAll]
  | cons p pre ih =>
    intro db hwf hnd hpre hk
    obtain ⟨k₀, l₀⟩ := p
    have hk₀ : persistFails f db h k₀ = false := hpre (k₀, l₀) (List.mem_cons_self _ _)
    simp only [List.cons_append, List.map_cons, List.nodup_cons] at hnd
    have hother : ∀ k', k' ∈ (pre ++ (k, l) :: post).map Prod.fst →
        findBucket (upsertDB h db k₀ l₀).buckets k' h = findBucket db.buckets k' h := by
      intro k' hk'
      apply findBucket_upsertDB_other hwf
      rintro ⟨rfl, -⟩
      exact hnd.1 hk'
    simp only [List.cons_append, upsertGroups, upsertGroup_eq, hk₀, Bool.false_eq_true, if_false,
      upsertAll]
    apply ih _ (WF_upsertDB hwf h k₀ l₀) hnd.2
    · intro p hp
      rw [persistFails_congr f h p.1 (hother p.1 ?_)]
      · exact hpre p (List.mem_cons_of_mem _ hp)
      · exact List.mem_map_of_mem Prod.fst (List.mem_append_left _ hp)
    · rw [persistFails_congr f h k (hother k ?_)]
      · exact hk
      · exact List.mem_map_of_mem Prod.fst (List.mem_append_right _ (List.mem_cons_self _ _))

/-- C4, as the code behaves. When persisting the bucket of a group fails, the
call returns the error at once: the groups visited before the failing one hold
their new statistics, while the failing group and every group that would have
been visited after it are as they were before the call. -/
theorem C4_stops_at_failed_group (f : AggFaults) (hfind : f.findErr = false) (o : AggOrders)
    (hv : o.Valid) (db : DB) (hwf : db.WF) (h : Int) (pre post : List (Key × List Sample))
    (k : Key) (l : List Sample)
    (hsplit : o.range (groupEvents (windowEvents o db h)) = pre ++ (k, l) :: post)
    (hpre : ∀ p ∈ pre, persistFails f db h p.1 = false) (hk : persistFails f db h k = true) :
    (runAggregationOnce f o db h).2 = Outcome.error ∧
    (∀ p ∈ pre, ∃ r, findBucket (runAggregationOnce f o db h).1.buckets p.1 h = some r ∧
      r.derived = (statsRow h p.1 ((groupOf db h p.1).map Event.sample)).derived) ∧
    (∀ p ∈ (k, l) :: post,
      findBucket (runAggregationOnce f o db h).1.buckets p.1 h = findBucket db.buckets p.1 h) := by
  obtain ⟨hnd, hstats, -⟩ := range_groups hv db h
  rw [hsplit] at hnd hstats
  have hrun : runAggregationOnce f o db h = (upsertAll h pre db, Outcome.error) := by
    unfold runAggregationOnce
    rw [hfind, hsplit]
    simp only [Bool.false_eq_true, if_false]
    exact upsertGroups_stops f h k l post pre db hwf hnd hpre hk
  rw [hrun]
  have hndpre : (pre.map Prod.fst).Nodup := by
    rw [List.map_append] at hnd
    exact (List.nodup_append.mp hnd).1
  refine ⟨rfl, ?_, ?_⟩
  · intro p hp
    obtain ⟨r, hr, hd, -⟩ := findBucket_upsertAll_mem h pre db hwf hndpre p.1 p.2 hp
    refine ⟨r, hr, ?_⟩
    rw [hd, (hstats p.1 p.2 (List.mem_append_left _ hp)).1]
  · intro p hp
    apply findBucket_upsertAll_other h pre p.1 h _ db hwf
    right
    intro hmem
    rw [List.map_append] at hnd
    exact (List.nodup_append.mp hnd).2.2 hmem (List.mem_map_of_mem Prod.fst hp)

/-- Witness of C4 as amended: the update of the first group fails, the second
group gets no bucket. -/
theorem C4_stops_at_failed_group_witness :
    (runAggregationOnce shopUpdateFails plainOrders dbTwo 0).2 = Outcome.error ∧
    findBucket (runAggregationOnce shopUpdateFails plainOrders dbTwo 0).1.buckets keyBlog 0 =
      findBucket dbTwo.buckets keyBlog 0 := by
  have hc := C4_stops_at_failed_group shopUpdateFails rfl plainOrders plainOrders_valid dbTwo
    (by decide) 0 [] [(keyBlog, [{ status := 500, dur := 10 }])] keyShop
    [{ status := 200, dur := 30 }, { status := 200, dur := 50 }] (by decide)
    (by intro p hp; simp at hp) (by decide)
  exact ⟨hc.1, hc.2.2 (keyBlog, _) (List.mem_cons_of_mem _ (List.mem_cons_self _ _))⟩

/-- C4 fails as stated: with two groups in the window, when persisting the
bucket of the first one visited fails the call returns the error and the
bucket of the other group is never written. -/
theorem C4_remaining_groups_skipped :
    (runAggregationOnce shopUpdateFails plainOrders dbTwo 0).2 = Outcome.error ∧
    groupOf dbTwo 0 keyBlog ≠ [] ∧ persistFails shopUpdateFails dbTwo 0 keyBlog = false ∧
    findBucket (runAggregationOnce shopUpdateFails plainOrders dbTwo 0).1.buckets keyBlog 0 = none := by
  decide

/-! ## Ingestion -/

theorem records_foldl (d now : Int) (owner project : String) (events : List IngestEvent) :
    ∀ acc : List Event,
      events.foldl
        (fun records ev =>
          if ev.Path = "" then records
          else records ++ [IngestHandler.record d now owner project ev]) acc =
      acc ++ (events.filter IngestEvent.valid).map (IngestHandler.record d now owner project) := by
  induction events with
  | nil => intro acc; simp
  | cons ev rest ih =>
    intro acc
    rw [List.foldl_cons, ih]
    by_cases hp : ev.Path = ""
    · simp [hp, IngestEvent.valid]
    · simp [hp, IngestEvent.valid]

theorem records_eq (d now : Int) (owner project : String) (events : List IngestEvent) :
    IngestHandler.records d now owner project events =
      (events.filter IngestEvent.valid).map (IngestHandler.record d now owner project) := by
  unfold IngestHandler.records
  rw [records_foldl]
  simp

theorem length_assignIDs (recs : List Event) : ∀ seq, (assignIDs seq recs).length = recs.length := by
  induction recs with
  | nil => intro seq; rfl
  | cons r rs ih => intro seq; simp [assignIDs, ih]

theorem clearID_assignIDs (recs : List Event) :
    ∀ seq, (assignIDs seq recs).map Event.clearID = recs.map Event.clearID := by
  induction recs with
  | nil => intro seq; rfl
  | cons r rs ih => intro seq; simp [assignIDs, ih, Event.clearID]

theorem mem_assignIDs {recs : List Event} : ∀ {seq : Nat} {r : Event}, r ∈ assignIDs seq recs →
    ∃ r₀ ∈ recs, r.clearID = r₀.clearID := by
  induction recs with
  | nil => intro seq r hr; simp [assignIDs] at hr
  | cons r₁ rs ih =>
    intro seq r hr
    simp only [assignIDs, List.mem_cons] at hr
    rcases hr with rfl | hr
    · exact ⟨r₁, List.mem_cons_self _ _, rfl⟩
    · obtain ⟨r₀, h₀, he⟩ := ih hr
      exact ⟨r₀, List.mem_cons_of_mem _ h₀, he⟩

theorem mem_stored {recs : List Event} {t : Int} {seq : Nat} {r : Event}
    (hr : r ∈ assignIDs seq (recs.map (autoCreateTime t))) :
    ∃ r₀ ∈ recs, r.ExpiresAt = r₀.ExpiresAt ∧ r.UserID = r₀.UserID ∧ r.Project = r₀.Project := by
  obtain ⟨r₁, hr₁, he⟩ := mem_assignIDs hr
  obtain ⟨r₀, hr₀, rfl⟩ := List.mem_map.mp hr₁
  have hf := autoCreateTime_fields t r₀
  have h1 : r.ExpiresAt = r.clearID.ExpiresAt := rfl
  have h2 : r.UserID = r.clearID.UserID := rfl
  have h3 : r.Project = r.clearID.Project := rfl
  refine ⟨r₀, hr₀, ?_, ?_, ?_⟩
  · rw [h1, he]; exact hf.2.1
  · rw [h2, he]; exact hf.2.2.1
  · rw [h3, he]; exact hf.2.2.2.1

theorem record_fields (d now : Int) (owner project : String) (ev : IngestEvent) :
    (IngestHandler.record d now owner project ev).CreatedAt = ev.Timestamp.getD now ∧
    (IngestHandler.record d now owner project ev).ExpiresAt =
      IngestHandler.expiresAt d (ev.Timestamp.getD now) ∧
    (IngestHandler.record d now owner project ev).UserID = owner ∧
    (IngestHandler.record d now owner project ev).Project = project := by
  cases ht : ev.Timestamp <;> simp [IngestHandler.record, ht]

theorem forall₂_assignIDs (now d t : Int) (owner project : String) (evs : List IngestEvent) :
    ∀ seq, List.Forall₂ storedFrom evs
      (assignIDs seq ((evs.map (IngestHandler.record d now owner project)).map
        (autoCreateTime t))) := by
  induction evs with
  | nil => intro seq; exact List.Forall₂.nil
  | cons ev rest ih =>
    intro seq
    simp only [List.map_cons, assignIDs]
    refine List.Forall₂.cons ?_ (ih _)
    have hf := autoCreateTime_fields t (IngestHandler.record d now owner project ev)
    exact ⟨hf.2.2.2.2.1, hf.2.2.2.2.2.1, hf.2.2.2.2.2.2.1, hf.2.2.2.2.2.2.2.1,
      hf.2.2.2.2.2.2.2.2.1, hf.2.2.2.2.2.2.2.2.2⟩

theorem forall₂_records (d now : Int) (owner project : String) (evs : List IngestEvent) :
    List.Forall₂
      (fun ev r => r.CreatedAt = ev.Timestamp.getD now ∧
        r.ExpiresAt = IngestHandler.expiresAt d (ev.Timestamp.getD now))
      evs (evs.map (IngestHandler.record d now owner project)) := by
  induction evs with
  | nil => exact List.Forall₂.nil
  | cons ev rest ih =>
    rw [List.map_cons]
    exact List.Forall₂.cons
      ⟨(record_fields d now owner project ev).1, (record_fields d now owner project ev).2.1⟩ ih

/-- What the handler does with a decoded body: the three ways it can end. -/
theorem IngestHandler_some (createErr : Bool) (cfg : Config) (now insertTime : Int) (apiKey : Option APIKey)
    (events : List IngestEvent) (db : DB) :
    IngestHandler createErr cfg now insertTime apiKey (some events) db =
      if events.filter IngestEvent.valid = [] then
        (db, { statusCode := 400,
               body := if events = [] then "no events provided"
                       else "no valid events after validation",
               contentType := none })
      else if createErr then
        (db, { statusCode := 500, body := "failed to persist events", contentType := none })
      else
        (createEvents db insertTime
            ((events.filter IngestEvent.valid).map
              (IngestHandler.record (IngestHandler.retentionDays cfg apiKey) now
                (IngestHandler.ownerUserID apiKey) (IngestHandler.project apiKey))),
          { statusCode := 202,
            body := "\x7b\"status\":\"accepted\",\"count\":" ++
              toString (events.filter IngestEvent.valid).length ++ "\x7d",
            contentType := some "application/json" }) := by
  unfold IngestHandler
  simp only [records_eq, List.length_map]
  by_cases he : events = []
  · subst he; simp
  · have hl : events.length ≠ 0 := fun h => he (List.eq_nil_of_length_eq_zero h)
    simp only [hl, if_false, he]
    by_cases hv : events.filter IngestEvent.valid = []
    · simp [hv]
    · have hl' : (events.filter IngestEvent.valid).length ≠ 0 :=
        fun h => hv (List.eq_nil_of_length_eq_zero h)
      simp only [hl', if_false, hv]

theorem filter_valid_eq_nil (events : List IngestEvent) :
    events.filter IngestEvent.valid = [] ↔ ∀ ev ∈ events, ev.Path = "" := by
  rw [List.filter_eq_nil_iff]
  simp [IngestEvent.valid]

/-- C5 fails as stated: the handler takes a positive key retention as it is,
so with a global value of 30 and a key retention of 90 the retention in force
is 90, above the global value. -/
theorem C5_key_retention_not_clamped :
    IngestHandler.retentionDays { RetentionDays := 30 } (some (keyWithRetention 90)) = 90 ∧
    ¬ (IngestHandler.retentionDays { RetentionDays := 30 } (some (keyWithRetention 90)) ≤
        ({ RetentionDays := 30 } : Config).RetentionDays) := by
  decide

/-- C5, as the code behaves. The retention in force at ingestion does not
exceed the global value whenever the key's stored retention does not exceed it
(or there is no key); the handler itself applies no clamp. -/
theorem C5_retention_within_ceiling (cfg : Config) (apiKey : Option APIKey)
    (hk : ∀ ak, apiKey = some ak → ak.RetentionDays ≤ cfg.RetentionDays) :
    IngestHandler.retentionDays cfg apiKey ≤ cfg.RetentionDays := by
  unfold IngestHandler.retentionDays
  cases apiKey with
  | none => exact le_refl _
  | some ak =>
    by_cases hp : ak.RetentionDays > 0
    · simp only [hp, if_true]; exact hk ak rfl
    · simp only [hp, if_false]; exact le_refl _

/-- Witness of C5 as amended: global 30, key retention 10. -/
theorem C5_retention_within_ceiling_witness :
    IngestHandler.retentionDays { RetentionDays := 30 } (some (keyWithRetention 10)) ≤ 30 :=
  C5_retention_within_ceiling { RetentionDays := 30 } (some (keyWithRetention 10))
    (by intro ak hak; cases hak; decide)

/-- C6. The retention in force is the key's value when a key is present and
that value is positive, and the global value otherwise. It is resolved once for
the call: the handler builds one record for each event with a non-empty path,
in order, each with the expiry computed with that one value from the record's
creation time (the payload timestamp, or the time of the call); these records
are what it inserts, and every row a successful call stores has an expiry
exactly when that value is positive. With key retention 10 and global 30 the
retention in force is 10. -/
theorem C6_retention_resolution (createErr : Bool) (cfg : Config) (now insertTime : Int)
    (apiKey : Option APIKey) (events : List IngestEvent) (db : DB) :
    (∀ ak, apiKey = some ak → 0 < ak.RetentionDays →
      IngestHandler.retentionDays cfg apiKey = ak.RetentionDays) ∧
    (∀ ak, apiKey = some ak → ak.RetentionDays ≤ 0 →
      IngestHandler.retentionDays cfg apiKey = cfg.RetentionDays) ∧
    (apiKey = none → IngestHandler.retentionDays cfg apiKey = cfg.RetentionDays) ∧
    List.Forall₂
      (fun ev r => r.CreatedAt = ev.Timestamp.getD now ∧
        r.ExpiresAt = IngestHandler.expiresAt (IngestHandler.retentionDays cfg apiKey)
          (ev.Timestamp.getD now))
      (events.filter fun ev => decide (ev.Path ≠ ""))
      (IngestHandler.records (IngestHandler.retentionDays cfg apiKey) now
        (IngestHandler.ownerUserID apiKey) (IngestHandler.project apiKey) events) ∧
    ((∃ ev ∈ events, ev.Path ≠ "") →
      (IngestHandler false cfg now insertTime apiKey (some events) db).1 =
        createEvents db insertTime
          (IngestHandler.records (IngestHandler.retentionDays cfg apiKey) now
            (IngestHandler.ownerUserID apiKey) (IngestHandler.project apiKey) events) ∧
      ∃ new, (IngestHandler false cfg now insertTime apiKey (some events) db).1.events =
          db.events ++ new ∧
        new.length = (events.filter fun ev => decide (ev.Path ≠ "")).length ∧
        ∀ r ∈ new, (r.ExpiresAt ≠ none ↔ 0 < IngestHandler.retentionDays cfg apiKey)) ∧
    (createErr = true →
      (IngestHandler createErr cfg now insertTime apiKey (some events) db).1 = db) ∧
    IngestHandler.retentionDays { RetentionDays := 30 } (some (keyWithRetention 10)) = 10 := by
  have hfun : (fun ev : IngestEvent => decide (ev.Path ≠ "")) = IngestEvent.valid := rfl
  refine ⟨?_, ?_, ?_, ?_, ?_, ?_, by decide⟩
  · intro ak hak hp
    subst hak
    simp [IngestHandler.retentionDays, hp]
  · intro ak hak hp
    subst hak
    have : ¬ ak.RetentionDays > 0 := by omega
    simp [IngestHandler.retentionDays, this]
  · intro hak
    subst hak
    rfl
  · rw [records_eq, hfun]
    exact forall₂_records _ _ _ _ _
  · intro hex
    have hv : events.filter IngestEvent.valid ≠ [] := by
      intro hnil
      obtain ⟨ev, hev, hp⟩ := hex
      exact hp ((filter_valid_eq_nil events).mp hnil ev hev)
    rw [IngestHandler_some, records_eq, hfun]
    simp only [hv, if_false, Bool.false_eq_true]
    refine ⟨trivial, _, rfl, ?_, ?_⟩
    · rw [length_assignIDs, List.length_map, List.length_map]
    · intro r hr
      obtain ⟨r₀, hr₀, he, -, -⟩ := mem_stored hr
      obtain ⟨ev, -, rfl⟩ := List.mem_map.mp hr₀
      rw [he, (record_fields _ _ _ _ _).2.1]
      unfold IngestHandler.expiresAt
      by_cases hd : IngestHandler.retentionDays cfg apiKey > 0
      · simp only [hd, if_true]
        simp
      · simp only [hd, if_false]
        simp
  · intro hc
    subst hc
    rw [IngestHandler_some]
    by_cases hv : events.filter IngestEvent.valid = []
    · simp [hv]
    · simp [hv]

/-- Witness of C6: a key with retention 10 under a global value of 30. -/
theorem C6_retention_resolution_witness :
    IngestHandler.retentionDays { RetentionDays := 30 } (some (keyWithRetention 10)) =
      (keyWithRetention 10).RetentionDays :=
  (C6_retention_resolution false { RetentionDays := 30 } 0 0 (some (keyWithRetention 10)) []
    emptyDB).1 (keyWithRetention 10) rfl (by decide)

/-- Within 106751 days the duration is computed without wrapping. -/
theorem retentionDuration_exact {d : Int} (h0 : 0 ≤ d) (h1 : d ≤ 106751) :
    IngestHandler.retentionDuration d = d * 24 * Hour := by
  unfold IngestHandler.retentionDuration wrap64 Hour
  omega

/-- For a positive retention of at most 106751 days the expiry is present and
is the creation instant plus that many days, later than the creation instant;
without a positive retention there is no expiry. -/
theorem expiresAt_in_range (d t : Int) :
    (0 < d → d ≤ 106751 →
      IngestHandler.expiresAt d t = some (t + d * 24 * Hour) ∧ t < t + d * 24 * Hour) ∧
    (d ≤ 0 → IngestHandler.expiresAt d t = none) := by
  constructor
  · intro h0 h1
    have hd : d > 0 := h0
    simp only [IngestHandler.expiresAt, hd, if_true, retentionDuration_exact (le_of_lt h0) h1]
    refine ⟨trivial, ?_⟩
    unfold Hour
    omega
  · intro h0
    have hd : ¬ d > 0 := by omega
    simp only [IngestHandler.expiresAt, hd, if_false]

/-- C7, the code at a failing input. With a retention of 106752 days the
product of the day count and 24 hours leaves the range of int64 and wraps to a
negative duration: an event created at instant 1000 is stored with an expiry
about 292 years before its creation, not 106752 days after it. -/
theorem C7_expiry_wraps_at_106752_days :
    IngestHandler.retentionDuration 106752 = -9223371273709551616 ∧
    (106752 : Int) * 24 * Hour = 9223372800000000000 ∧
    (IngestHandler false { RetentionDays := 106752 } 1000 2000 none (some [mkIngest "/a" 5])
        emptyDB).1.events.map (fun e => (e.CreatedAt, e.ExpiresAt)) =
      [(1000, some (-9223371273709550616))] := by
  decide

/-- C8. When at least one event of the decoded body has a non-empty path and
the batch insert succeeds, the handler answers 202 with the count N of events
with a non-empty path in the body, and the store gains exactly N events after
the ones it held, built one by one and in request order from the events with a
non-empty path: the k-th new row carries the path, method, status, duration,
remote address and attributes of the k-th such event. -/
theorem C8_partial_batch_accepted (cfg : Config) (now insertTime : Int) (apiKey : Option APIKey)
    (events : List IngestEvent) (db : DB) (hex : ∃ ev ∈ events, ev.Path ≠ "") :
    (IngestHandler false cfg now insertTime apiKey (some events) db).2.statusCode = 202 ∧
    (IngestHandler false cfg now insertTime apiKey (some events) db).2.body =
      "\x7b\"status\":\"accepted\",\"count\":" ++
        toString (events.filter fun ev => decide (ev.Path ≠ "")).length ++ "\x7d" ∧
    ∃ new, (IngestHandler false cfg now insertTime apiKey (some events) db).1.events =
        db.events ++ new ∧
      new.length = (events.filter fun ev => decide (ev.Path ≠ "")).length ∧
      List.Forall₂ storedFrom (events.filter fun ev => decide (ev.Path ≠ "")) new := by
  have hv : events.filter IngestEvent.valid ≠ [] := by
    intro hnil
    obtain ⟨ev, hev, hp⟩ := hex
    exact hp ((filter_valid_eq_nil events).mp hnil ev hev)
  have hfun : (fun ev : IngestEvent => decide (ev.Path ≠ "")) = IngestEvent.valid := rfl
  rw [IngestHandler_some, hfun]
  simp only [hv, if_false, Bool.false_eq_true]
  refine ⟨trivial, trivial, _, rfl, ?_, ?_⟩
  · rw [length_assignIDs, List.length_map, List.length_map]
  · exact forall₂_assignIDs now _ insertTime _ _ _ _

/-- Witness of C8: of the two events with paths "/a" and "" one is accepted. -/
theorem C8_partial_batch_accepted_witness :
    (IngestHandler false { RetentionDays := 30 } 1000 2000 (some (keyWithRetention 10))
      (some [mkIngest "/a" 5, mkIngest "" 5]) emptyDB).2.body =
      "\x7b\"status\":\"accepted\",\"count\":1\x7d" ∧
    (IngestHandler false { RetentionDays := 30 } 1000 2000 (some (keyWithRetention 10))
      (some [mkIngest "/a" 5, mkIngest "" 5]) emptyDB).2.statusCode = 202 := by
  have hc := C8_partial_batch_accepted { RetentionDays := 30 } 1000 2000 (some (keyWithRetention 10))
    [mkIngest "/a" 5, mkIngest "" 5] emptyDB ⟨mkIngest "/a" 5, by decide, by decide⟩
  refine ⟨?_, hc.1⟩
  rw [hc.2.1]
  decide

/-- A payload timestamp equal to the zero time: the expiry is computed from it
by the handler, and the insert then stores its own clock reading as the
creation time. -/
theorem zero_timestamp_filled :
    (IngestHandler false { RetentionDays := 30 } 1000 2000 none
        (some [{ mkIngest "/a" 5 with Timestamp := some zeroTime }]) emptyDB).1.events.map
      (fun e => (e.CreatedAt, e.ExpiresAt)) =
      [(2000, some (zeroTime + 30 * 24 * Hour))] := by
  decide

/-- C9. For a decoded body, the handler answers 400 and leaves the database
as it was exactly when the events list is empty or every event in it has an
empty path, whether or not the database would have accepted a write; the body
with the single event of empty path is rejected in this way. -/
theorem C9_all_invalid_rejected (createErr : Bool) (cfg : Config) (now insertTime : Int)
    (apiKey : Option APIKey) (events : List IngestEvent) (db : DB) :
    (((IngestHandler createErr cfg now insertTime apiKey (some events) db).2.statusCode = 400 ∧
        (IngestHandler createErr cfg now insertTime apiKey (some events) db).1 = db) ↔
      (events = [] ∨ ∀ ev ∈ events, ev.Path = "")) ∧
    ((IngestHandler createErr cfg now insertTime apiKey (some [mkIngest "" 5]) db).2.statusCode = 400 ∧
      (IngestHandler createErr cfg now insertTime apiKey (some [mkIngest "" 5]) db).1 = db) := by
  have hmain : ∀ evs : List IngestEvent,
      ((IngestHandler createErr cfg now insertTime apiKey (some evs) db).2.statusCode = 400 ∧
        (IngestHandler createErr cfg now insertTime apiKey (some evs) db).1 = db) ↔
      (evs = [] ∨ ∀ ev ∈ evs, ev.Path = "") := by
    intro evs
    rw [IngestHandler_some]
    by_cases hv : evs.filter IngestEvent.valid = []
    · have hall := (filter_valid_eq_nil evs).mp hv
      simp only [hv, if_true, true_and]
      exact ⟨fun _ => Or.inr hall, fun _ => trivial⟩
    · have hnall : ¬ (evs = [] ∨ ∀ ev ∈ evs, ev.Path = "") := by
        rintro (h | h)
        · subst h; exact hv rfl
        · exact hv ((filter_valid_eq_nil evs).mpr h)
      cases createErr <;> simp [hv, hnall]
  refine ⟨hmain events, (hmain _).mpr (Or.inr ?_)⟩
  intro ev hev
  rw [List.mem_singleton] at hev
  subst hev
  rfl

/-! ## Retention sweep -/

theorem expired_iff (now : Int) (e : Event) :
    expired now e = true ↔ ∃ t, e.ExpiresAt = some t ∧ t ≤ now := by
  unfold expired
  cases e.ExpiresAt with
  | none => simp
  | some t => simp

/-- C10. A sweep at clock reading `now` whose delete succeeds keeps exactly the
events that have no expiry or an expiry later than `now`, each as it was and as
often as it was, in their order; the events with an expiry at or before `now`
(the instant `now` included) are gone; buckets are not touched. Of four events
expiring at 900, at 1100, never and at 1000, a sweep at 1000 keeps the second
and the third. -/
theorem C10_sweep_removes_expired (now : Int) (db : DB) :
    (runRetentionOnce false now db).2 = Outcome.ok ∧
    (∀ e, e ∈ (runRetentionOnce false now db).1.events ↔
      e ∈ db.events ∧ ¬ ∃ t, e.ExpiresAt = some t ∧ t ≤ now) ∧
    (∀ e, (¬ ∃ t, e.ExpiresAt = some t ∧ t ≤ now) →
      (runRetentionOnce false now db).1.events.count e = db.events.count e) ∧
    (runRetentionOnce false now db).1.events.Sublist db.events ∧
    (runRetentionOnce false now db).1.buckets = db.buckets ∧
    (runRetentionOnce false 1000 dbExpiry).1.events.map Event.ID = [2, 3] := by
  refine ⟨rfl, ?_, ?_, ?_, rfl, by decide⟩
  · intro e
    simp only [runRetentionOnce, Bool.false_eq_true, if_false, List.mem_filter,
      Bool.not_eq_true', ← expired_iff]
    simp
  · intro e he
    simp only [runRetentionOnce, Bool.false_eq_true, if_false]
    apply List.count_filter
    rw [← expired_iff] at he
    simpa using he
  · simp only [runRetentionOnce, Bool.false_eq_true, if_false]
    exact List.filter_sublist _

/-- Witness of C10: the event with no expiry is counted once before and after
the sweep. -/
theorem C10_sweep_removes_expired_witness :
    (runRetentionOnce false 1000 dbExpiry).1.events.count (mkEvent 3 0 "1" "shop" 200 5) =
      dbExpiry.events.count (mkEvent 3 0 "1" "shop" 200 5) :=
  (C10_sweep_removes_expired 1000 dbExpiry).2.2.1 (mkEvent 3 0 "1" "shop" 200 5)
    (by decide)

/-! ## Runs with arbitrary database errors -/

/-- Whatever errors the database returns, the loop has upserted an initial
part of the groups it was given, all of them when it ends without error, and
it never panics. -/
theorem upsertGroups_split (f : AggFaults) (h : Int) (gs : List (Key × List Sample)) :
    ∀ db : DB, ∃ pre post, gs = pre ++ post ∧
      (upsertGroups f h gs db).1 = upsertAll h pre db ∧
      ((upsertGroups f h gs db).2 = Outcome.ok → post = []) ∧
      (upsertGroups f h gs db).2 ≠ Outcome.panic := by
  induction gs with
  | nil => intro db; exact ⟨[], [], rfl, rfl, fun _ => rfl, by simp [upsertGroups]⟩
  | cons p rest ih =>
    intro db
    obtain ⟨k, l⟩ := p
    by_cases hf : persistFails f db h k = true
    · refine ⟨[], (k, l) :: rest, rfl, ?_, ?_, ?_⟩ <;>
        simp [upsertGroups, upsertGroup_eq, hf, upsertAll]
    · obtain ⟨pre, post, hsplit, hdb, hok, hpanic⟩ := ih (upsertDB h db k l)
      have hstep : upsertGroups f h ((k, l) :: rest) db =
          upsertGroups f h rest (upsertDB h db k l) := by
        simp [upsertGroups, upsertGroup_eq, hf]
      refine ⟨(k, l) :: pre, post, by rw [hsplit]; rfl, ?_, ?_, ?_⟩
      · rw [hstep, hdb]; rfl
      · rw [hstep]; exact hok
      · rw [hstep]; exact hpanic

theorem runAggregationOnce_split (f : AggFaults) (o : AggOrders) (db : DB) (h : Int) :
    ∃ pre post, o.range (groupEvents (windowEvents o db h)) = pre ++ post ∧
      (runAggregationOnce f o db h).1 = upsertAll h pre db ∧
      ((runAggregationOnce f o db h).2 = Outcome.ok → post = []) ∧
      (runAggregationOnce f o db h).2 ≠ Outcome.panic := by
  unfold runAggregationOnce
  cases hfe : f.findErr
  · simp only [Bool.false_eq_true, if_false]
    exact upsertGroups_split f h _ db
  · refine ⟨[], _, rfl, ?_, ?_, ?_⟩ <;> simp [upsertAll]

/-- C11. Whenever a call returns without error, the bucket of every non-empty
group of the window has as total_count the number of events of the group in
the window and as error_count the number of those with status at least 400;
a status of 400 is counted, a status of 399 is not. -/
theorem C11_counts_stored (f : AggFaults) (o : AggOrders) (hv : o.Valid) (db : DB) (hwf : db.WF)
    (h : Int) (hok : (runAggregationOnce f o db h).2 = Outcome.ok) (k : Key)
    (hne : groupOf db h k ≠ []) :
    (∃ r, findBucket (runAggregationOnce f o db h).1.buckets k h = some r ∧
      r.TotalCount = ((groupOf db h k).length : Int) ∧
      r.ErrorCount = (((groupOf db h k).countP fun e => decide (e.Status ≥ 400) : Nat) : Int)) ∧
    scanGroup [{ status := 400, dur := 1 }, { status := 399, dur := 2 }] = (1, [1, 2]) := by
  refine ⟨?_, by decide⟩
  obtain ⟨pre, post, hsplit, hdb, hpost, -⟩ := runAggregationOnce_split f o db h
  have hnil := hpost hok
  subst hnil
  rw [List.append_nil] at hsplit
  rw [hdb, ← hsplit]
  obtain ⟨hnd, hstats, hex⟩ := range_groups hv db h
  obtain ⟨l, hl⟩ := hex k hne
  obtain ⟨r, hr, hd, -⟩ := findBucket_upsertAll_mem h _ db hwf hnd k l hl
  rw [(hstats k l hl).1] at hd
  have hc := derived_statsRow_counts h k _ hd
  refine ⟨r, hr, ?_, ?_⟩
  · rw [hc.1, List.length_map]
  · rw [hc.2, List.countP_map]; rfl

/-- Witness of C11: the group of five events, two of them with an error status. -/
theorem C11_counts_stored_witness :
    ∃ r, findBucket (runAggregationOnce noFaults plainOrders dbFive 0).1.buckets keyShop 0 = some r ∧
      r.TotalCount = 5 ∧ r.ErrorCount = 2 := by
  obtain ⟨⟨r, hr, htot, herr⟩, -⟩ :=
    C11_counts_stored noFaults plainOrders plainOrders_valid dbFive (by decide) 0 (by decide)
      keyShop (by decide)
  refine ⟨r, hr, ?_, ?_⟩
  · rw [htot]; decide
  · rw [herr]; decide

/-- C13. For every size n of at least 1 and every rank p among 50, 95, 99 the
index n*p/100 is at most n-1, and the product n*99 stays within int64 for every
length a slice can have; hence reading the three percentiles never fails,
the row of a group is always computed and no call panics. For a single
duration every index is 0 and the three percentiles are that duration. -/
theorem C13_percentile_index_in_range :
    (∀ n p : Nat, 1 ≤ n → (p = 50 ∨ p = 95 ∨ p = 99) → pctIndex n p ≤ n - 1) ∧
    (∀ n : Nat, n ≤ 93162343806613896 → wrap64 ((n : Int) * 99) = (n : Int) * 99) ∧
    (∀ d : List Int, ∃ p50 p95 p99, percentiles d = some (p50, p95, p99)) ∧
    (∀ (h : Int) (k : Key) (l : List Sample), ∃ row, groupRow h k l = some row) ∧
    (∀ (f : AggFaults) (o : AggOrders) (db : DB) (h : Int),
      (runAggregationOnce f o db h).2 ≠ Outcome.panic) ∧
    (pctIndex 1 50 = 0 ∧ pctIndex 1 95 = 0 ∧ pctIndex 1 99 = 0) ∧
    (∀ d : Int, percentiles (sortDurations [d]) = some (d, d, d)) := by
  refine ⟨?_, ?_, ?_, ?_, ?_, by decide, ?_⟩
  · intro n p hn hp
    have hlt : pctIndex n p < n := pctIndex_lt hn (by rcases hp with rfl | rfl | rfl <;> decide)
    omega
  · intro n hn
    unfold wrap64
    omega
  · intro d
    exact ⟨_, _, _, percentiles_eq d⟩
  · intro h k l
    exact ⟨_, groupRow_eq h k l⟩
  · intro f o db h
    obtain ⟨-, -, -, -, -, hp⟩ := runAggregationOnce_split f o db h
    exact hp
  · intro d
    rw [percentiles_eq]
    simp [sortDurations, pctIndex]

/-- Witness of C13: a group of seven, rank 99, index 6. -/
theorem C13_percentile_index_in_range_witness : pctIndex 7 99 ≤ 7 - 1 :=
  C13_percentile_index_in_range.1 7 99 (by decide) (Or.inr (Or.inr rfl))

/-! ## Uniqueness of the natural key -/

theorem naturalKey_overwrite (id : Nat) (row r : MetricBucket) :
    (if r.ID = id then overwriteDerived r row else r).naturalKey = r.naturalKey := by
  by_cases hid : r.ID = id <;> simp [hid, overwriteDerived, MetricBucket.naturalKey]

theorem naturalKey_updateBucket (db : DB) (id : Nat) (row : MetricBucket) :
    (updateBucket db id row).buckets.map MetricBucket.naturalKey =
      db.buckets.map MetricBucket.naturalKey := by
  unfold updateBucket
  simp only [List.map_map]
  congr 1
  funext r
  exact naturalKey_overwrite id row r

theorem naturalKey_of_matches {k : Key} {h : Int} {r : MetricBucket}
    (hm : bucketMatches k h r = true) : r.naturalKey = (k.UserID, k.Project, h) := by
  have := (bucketMatches_iff k h r).mp hm
  simp [MetricBucket.naturalKey, this.1, this.2.1, this.2.2]

theorem matches_of_naturalKey {k : Key} {h : Int} {r : MetricBucket}
    (hk : r.naturalKey = (k.UserID, k.Project, h)) : bucketMatches k h r = true := by
  simp only [MetricBucket.naturalKey, Prod.mk.injEq] at hk
  exact (bucketMatches_iff k h r).mpr hk

theorem UniqueKeys_upsertDB {db : DB} (hu : UniqueKeys db.buckets) (h : Int) (k : Key)
    (l : List Sample) : UniqueKeys (upsertDB h db k l).buckets := by
  unfold upsertDB
  cases hf : findBucket db.buckets k h with
  | none =>
    unfold UniqueKeys createBucket
    simp only [List.map_append, List.map_cons, List.map_nil]
    apply List.Nodup.append hu (List.nodup_singleton _)
    intro key hkey hnew
    rw [List.mem_singleton] at hnew
    subst hnew
    obtain ⟨r, hr, hrk⟩ := List.mem_map.mp hkey
    have hm : bucketMatches k h r = true := by
      apply matches_of_naturalKey
      rw [hrk]
      rfl
    rw [findBucket_none.mp hf r hr] at hm
    exact Bool.false_ne_true hm
  | some ex =>
    unfold UniqueKeys
    rw [naturalKey_updateBucket]
    exact hu

theorem UniqueKeys_upsertAll (h : Int) (gs : List (Key × List Sample)) :
    ∀ db : DB, UniqueKeys db.buckets → UniqueKeys (upsertAll h gs db).buckets := by
  induction gs with
  | nil => intro db hu; exact hu
  | cons p rest ih => intro db hu; exact ih _ (UniqueKeys_upsertDB hu h p.1 p.2)

theorem UniqueKeys_runAggregationOnce (f : AggFaults) (o : AggOrders) (db : DB) (h : Int)
    (hu : UniqueKeys db.buckets) : UniqueKeys (runAggregationOnce f o db h).1.buckets := by
  obtain ⟨pre, post, -, hdb, -, -⟩ := runAggregationOnce_split f o db h
  rw [hdb]
  exact UniqueKeys_upsertAll h pre db hu

/-- C12. When the bucket table has at most one row per (tenant, project,
bucket_start), it still has after any sequence of calls of runAggregationOnce,
whatever the hours, the contents of the events table at each call, the errors
returned by the database and the orders of rows and map entries. -/
theorem C12_natural_key_unique (calls : List (Int × PassEnv)) (db : DB)
    (hu : UniqueKeys db.buckets) : UniqueKeys (aggregationPasses calls db).1.buckets := by
  induction calls generalizing db with
  | nil => exact hu
  | cons c rest ih =>
    obtain ⟨b, env⟩ := c
    have hstep := UniqueKeys_runAggregationOnce env.faults env.orders
      { db with events := env.events } b hu
    unfold aggregationPasses
    generalize runAggregationOnce env.faults env.orders { db with events := env.events } b = res
      at hstep
    obtain ⟨db', out⟩ := res
    cases out with
    | ok => exact ih db' hstep
    | error => exact ih db' hstep
    | panic => exact hstep

/-- Witness of C12: two runs of the first hour and one of the second on a
store with two groups. -/
theorem C12_natural_key_unique_witness :
    UniqueKeys (aggregationPasses
      [(0, plainEnv dbHours.events), (3600000000000, plainEnv dbHours.events),
       (0, plainEnv dbHours.events)] dbHours).1.buckets :=
  C12_natural_key_unique _ dbHours (by decide)

/-! ## What a run leaves untouched -/

theorem filter_map_of_fixed {α : Type} (p : α → Bool) (f : α → α) (l : List α)
    (hf : ∀ x ∈ l, f x = x ∨ (p x = false ∧ p (f x) = false)) :
    (l.map f).filter p = l.filter p := by
  induction l with
  | nil => rfl
  | cons x rest ih =>
    have ih' := ih fun y hy => hf y (List.mem_cons_of_mem _ hy)
    rcases hf x (List.mem_cons_self _ _) with hx | ⟨h1, h2⟩
    · simp only [List.map_cons, hx, List.filter_cons, ih']
    · simp only [List.map_cons, List.filter_cons, h1, h2, ih', Bool.false_eq_true, if_false]

/-- An upsert of group `k` at hour `h` leaves, in place, every row selected by a
condition that no row of that group and hour satisfies. -/
theorem filter_upsertDB {db : DB} (hwf : db.WF) (h : Int) (k : Key) (l : List Sample)
    (p : MetricBucket → Bool) (hp : ∀ r, p r = true → bucketMatches k h r = false) :
    (upsertDB h db k l).buckets.filter p = db.buckets.filter p := by
  have hpm : ∀ r, bucketMatches k h r = true → p r = false := by
    intro r hm
    cases hpr : p r with
    | false => rfl
    | true => rw [hp r hpr] at hm; exact absurd hm Bool.false_ne_true
  unfold upsertDB
  cases hf : findBucket db.buckets k h with
  | none =>
    have hm : bucketMatches k h { statsRow h k l with ID := db.bucketSeq } = true :=
      (statsRow_matches h k l k h).mpr ⟨rfl, rfl⟩
    simp only [createBucket, List.filter_append, List.filter_cons, hpm _ hm, List.filter_nil,
      Bool.false_eq_true, if_false, List.append_nil]
  | some ex =>
    simp only [updateBucket]
    apply filter_map_of_fixed
    intro x hx
    by_cases hid : x.ID = ex.ID
    · right
      have hxe := hwf.id_inj hx (findBucket_mem hf).1 hid
      subst hxe
      have hmx := (findBucket_mem hf).2
      refine ⟨hpm _ hmx, hpm _ ?_⟩
      rw [bucketMatches_overwrite]
      exact hmx
    · left; simp [hid]

theorem filter_upsertAll (h : Int) (gs : List (Key × List Sample)) (p : MetricBucket → Bool)
    (hp : ∀ k l, (k, l) ∈ gs → ∀ r, p r = true → bucketMatches k h r = false) :
    ∀ db : DB, db.WF → (upsertAll h gs db).buckets.filter p = db.buckets.filter p := by
  induction gs with
  | nil => intro db _; rfl
  | cons g rest ih =>
    intro db hwf
    obtain ⟨k, l⟩ := g
    simp only [upsertAll]
    rw [ih (fun k' l' hm => hp k' l' (List.mem_cons_of_mem _ hm)) _ (WF_upsertDB hwf h k l),
      filter_upsertDB hwf h k l p (hp k l (List.mem_cons_self _ _))]

/-- Every row a loop over groups adds or overwrites holds the total of a group. -/
theorem total_upsertAll (h : Int) (gs : List (Key × List Sample)) (ids : List Nat)
    (hpos : ∀ k l, (k, l) ∈ gs → 1 ≤ (statsRow h k l).TotalCount) :
    ∀ db : DB, (∀ r ∈ db.buckets, r.ID ∈ ids ∨ 1 ≤ r.TotalCount) →
      ∀ r ∈ (upsertAll h gs db).buckets, r.ID ∈ ids ∨ 1 ≤ r.TotalCount := by
  induction gs with
  | nil => intro db hdb; exact hdb
  | cons g rest ih =>
    intro db hdb
    obtain ⟨k, l⟩ := g
    have hkl := hpos k l (List.mem_cons_self _ _)
    simp only [upsertAll]
    apply ih fun k' l' hm => hpos k' l' (List.mem_cons_of_mem _ hm)
    intro r hr
    unfold upsertDB at hr
    cases hf : findBucket db.buckets k h with
    | none =>
      rw [hf] at hr
      simp only [createBucket, List.mem_append, List.mem_singleton] at hr
      rcases hr with hr | rfl
      · exact hdb r hr
      · exact Or.inr hkl
    | some ex =>
      rw [hf] at hr
      simp only [updateBucket, List.mem_map] at hr
      obtain ⟨x, hx, rfl⟩ := hr
      by_cases hid : x.ID = ex.ID
      · simp only [hid, if_true]
        exact Or.inr hkl
      · simp only [hid, if_false]
        exact hdb x hx

theorem windowEvents_nil {o : AggOrders} (hv : o.Valid) (db : DB) (h : Int)
    (he : db.events.filter (inWindow h) = []) :
    o.range (groupEvents (windowEvents o db h)) = [] := by
  have h1 : o.scan (db.events.filter (inWindow h)) = [] := by
    rw [he]; exact List.Perm.eq_nil (hv.1 [])
  have h2 : windowEvents o db h = [] := by
    unfold windowEvents; rw [h1]; rfl
  rw [h2]
  exact List.Perm.eq_nil (hv.2 _)

/-- C14. Whatever errors the database returns, a call for hour h leaves the
rows stored under (tenant, project, h) exactly as they were for every pair
with no event in the window: none is added, none is changed. When the window
holds no event at all the database is left as it was. Every row that a call
adds (its primary key was not in the table before) has a total_count of at
least 1. -/
theorem C14_empty_group_untouched (f : AggFaults) (o : AggOrders) (hv : o.Valid) (db : DB)
    (hwf : db.WF) (h : Int) :
    (∀ k, groupOf db h k = [] →
      (runAggregationOnce f o db h).1.buckets.filter (bucketMatches k h) =
        db.buckets.filter (bucketMatches k h)) ∧
    (db.events.filter (inWindow h) = [] → (runAggregationOnce f o db h).1 = db) ∧
    (∀ r ∈ (runAggregationOnce f o db h).1.buckets,
      r.ID ∉ db.buckets.map MetricBucket.ID → 1 ≤ r.TotalCount) := by
  obtain ⟨pre, post, hsplit, hdb, -, -⟩ := runAggregationOnce_split f o db h
  obtain ⟨-, hstats, -⟩ := range_groups hv db h
  rw [hsplit] at hstats
  refine ⟨?_, ?_, ?_⟩
  · intro k hk
    rw [hdb]
    apply filter_upsertAll h pre _ _ db hwf
    intro k' l' hm r hr
    have hne := (hstats k' l' (List.mem_append_left _ hm)).2
    have hkk : k' ≠ k := by rintro rfl; exact hne hk
    cases hm' : bucketMatches k' h r with
    | false => rfl
    | true =>
      exfalso
      have h1 := (bucketMatches_iff k h r).mp hr
      have h2 := (bucketMatches_iff k' h r).mp hm'
      apply hkk
      cases k; cases k'
      simp only [Key.mk.injEq]
      simp only at h1 h2
      exact ⟨h2.1.symm.trans h1.1, h2.2.1.symm.trans h1.2.1⟩
  · intro he
    have hnil := windowEvents_nil hv db h he
    rw [hsplit] at hnil
    have hpre : pre = [] := (List.append_eq_nil.mp hnil).1
    rw [hdb, hpre]
    rfl
  · intro r hr hid
    rw [hdb] at hr
    have hall := total_upsertAll h pre (db.buckets.map MetricBucket.ID) (by
      intro k l hm
      obtain ⟨hs, hne⟩ := hstats k l (List.mem_append_left _ hm)
      rw [hs]
      have hlen : 0 < (groupOf db h k).length := List.length_pos.mpr hne
      simp only [statsRow, List.length_map]
      omega) db (fun r hr => Or.inl (List.mem_map_of_mem _ hr)) r hr
    rcases hall with hin | hge
    · exact absurd hin hid
    · exact hge

/-- Witness of C14: the blog group has no event in the hour starting at
3600000000000, and the run of that hour leaves it without a row. -/
theorem C14_empty_group_untouched_witness :
    (runAggregationOnce noFaults plainOrders dbHours 3600000000000).1.buckets.filter
        (bucketMatches keyBlog 3600000000000) = [] :=
  (C14_empty_group_untouched noFaults plainOrders plainOrders_valid dbHours (by decide)
    3600000000000).1 keyBlog (by decide)

/-! ## The window -/

theorem inWindow_iff (h : Int) (e : Event) :
    inWindow h e = true ↔ h ≤ e.CreatedAt ∧ e.CreatedAt < h + Hour := by
  simp [inWindow]

/-- C15. The rows a call for hour h reads are, up to their order, the events
with h <= created_at < h + 1h: an event stamped h is read for hour h, an event
stamped h + 1h is read for hour h + 1h and not for hour h, and among the
windows h + i*1h (i any integer) exactly one reads a given event. -/
theorem C15_half_open_window :
    (∀ (h : Int) (e : Event), inWindow h e = true ↔ h ≤ e.CreatedAt ∧ e.CreatedAt < h + Hour) ∧
    (∀ (o : AggOrders), o.Valid → ∀ (db : DB) (h : Int),
      (windowEvents o db h).Perm
        ((db.events.filter fun e => decide (h ≤ e.CreatedAt ∧ e.CreatedAt < h + Hour)).map
          selectColumns)) ∧
    (∀ (h : Int) (e : Event), e.CreatedAt = h → inWindow h e = true) ∧
    (∀ (h : Int) (e : Event), e.CreatedAt = h + Hour →
      inWindow h e = false ∧ inWindow (h + Hour) e = true) ∧
    (∀ (h : Int) (e : Event), ∃! i : Int, inWindow (h + i * Hour) e = true) := by
  refine ⟨inWindow_iff, ?_, ?_, ?_, ?_⟩
  · intro o hv db h
    unfold windowEvents
    have hfun : (fun e : Event => decide (h ≤ e.CreatedAt ∧ e.CreatedAt < h + Hour)) =
        inWindow h := by
      funext e
      simp [inWindow]
    rw [hfun]
    exact (hv.1 _).map _
  · intro h e he
    rw [inWindow_iff, he]
    unfold Hour
    omega
  · intro h e he
    constructor
    · rw [Bool.eq_false_iff]
      intro hc
      rw [inWindow_iff, he] at hc
      omega
    · rw [inWindow_iff, he]
      unfold Hour
      omega
  · intro h e
    refine ⟨(e.CreatedAt - h) / Hour, ?_, ?_⟩
    · show inWindow (h + (e.CreatedAt - h) / Hour * Hour) e = true
      rw [inWindow_iff]
      have h1 := Int.emod_add_ediv (e.CreatedAt - h) Hour
      have h2 := Int.emod_nonneg (e.CreatedAt - h) (show Hour ≠ 0 by decide)
      have h3 := Int.emod_lt_of_pos (e.CreatedAt - h) (show 0 < Hour by decide)
      have h4 : (e.CreatedAt - h) / Hour * Hour = Hour * ((e.CreatedAt - h) / Hour) :=
        Int.mul_comm _ _
      omega
    · intro j hj
      have hj' := (inWindow_iff _ _).mp hj
      have h1 := Int.emod_add_ediv (e.CreatedAt - h) Hour
      have h2 := Int.emod_nonneg (e.CreatedAt - h) (show Hour ≠ 0 by decide)
      have h3 := Int.emod_lt_of_pos (e.CreatedAt - h) (show 0 < Hour by decide)
      generalize (e.CreatedAt - h) / Hour = q at *
      generalize (e.CreatedAt - h) % Hour = m at *
      unfold Hour at *
      omega

/-- Witness of C15: on the sample store the run of the hour starting at 0
reads the two events stamped 5 and 6, not the one stamped in the next hour. -/
theorem C15_half_open_window_witness :
    (windowEvents plainOrders dbHours 0).Perm
      [selectColumns (mkEvent 1 5 "1" "shop" 200 30), selectColumns (mkEvent 2 6 "1" "blog" 500 10)] :=
  C15_half_open_window.2.1 plainOrders plainOrders_valid dbHours 0

/-! ## Independence of the windows -/

theorem findBucket_of_unique {bs : List MetricBucket} (hu : UniqueKeys bs) {r : MetricBucket}
    (hr : r ∈ bs) :
    findBucket bs { UserID := r.UserID, Project := r.Project } r.BucketStart = some r := by
  have hm : bucketMatches { UserID := r.UserID, Project := r.Project } r.BucketStart r = true :=
    (bucketMatches_iff _ _ r).mpr ⟨rfl, rfl, rfl⟩
  cases hf : findBucket bs { UserID := r.UserID, Project := r.Project } r.BucketStart with
  | none =>
    rw [findBucket_none.mp hf r hr] at hm
    exact absurd hm Bool.false_ne_true
  | some r' =>
    have hr' := findBucket_mem hf
    have hk : r'.naturalKey = r.naturalKey := by
      rw [naturalKey_of_matches hr'.2, naturalKey_of_matches hm]
    rw [List.inj_on_of_nodup_map hu hr'.1 hr hk]

theorem mem_contents_of_lookup {a b : List MetricBucket} (hu : UniqueKeys a)
    (hl : ∀ k h, (findBucket a k h).map MetricBucket.content =
      (findBucket b k h).map MetricBucket.content)
    (c : (String × String × Int) × (Int × Int × Int × Int × Int))
    (hc : c ∈ a.map MetricBucket.content) : c ∈ b.map MetricBucket.content := by
  obtain ⟨r, hr, rfl⟩ := List.mem_map.mp hc
  have hf := findBucket_of_unique hu hr
  have := hl { UserID := r.UserID, Project := r.Project } r.BucketStart
  rw [hf] at this
  cases hb : findBucket b { UserID := r.UserID, Project := r.Project } r.BucketStart with
  | none => rw [hb] at this; simp at this
  | some r' =>
    rw [hb] at this
    simp only [Option.map_some', Option.some.injEq] at this
    rw [this]
    exact List.mem_map_of_mem _ (findBucket_mem hb).1

/-- Two bucket tables with unique natural keys and the same lookups hold the
same rows, primary keys and row order apart. -/
theorem contents_perm_of_lookup {a b : List MetricBucket} (hua : UniqueKeys a) (hub : UniqueKeys b)
    (hl : ∀ k h, (findBucket a k h).map MetricBucket.content =
      (findBucket b k h).map MetricBucket.content) :
    (a.map MetricBucket.content).Perm (b.map MetricBucket.content) := by
  have hnd : ∀ l : List MetricBucket, UniqueKeys l → (l.map MetricBucket.content).Nodup := by
    intro l hu
    apply List.Nodup.of_map Prod.fst
    rw [List.map_map]
    exact hu
  rw [List.perm_ext_iff_of_nodup (hnd a hua) (hnd b hub)]
  intro c
  exact ⟨mem_contents_of_lookup hua hl c, mem_contents_of_lookup hub (fun k h => (hl k h).symm) c⟩

/-- The lookups after an error-free run: under the hour of the run, a group
with events has the row of its statistics; every other lookup is as before. -/
theorem lookup_runAggregationOnce {o : AggOrders} (hv : o.Valid) {db : DB} (hwf : db.WF) (h : Int)
    (k : Key) (h' : Int) :
    (h' = h → groupOf db h k ≠ [] →
      (findBucket (runAggregationOnce noFaults o db h).1.buckets k h').map MetricBucket.content =
        some ((k.UserID, k.Project, h),
          (statsRow h k ((groupOf db h k).map Event.sample)).derived)) ∧
    (¬ (h' = h ∧ groupOf db h k ≠ []) →
      findBucket (runAggregationOnce noFaults o db h).1.buckets k h' =
        findBucket db.buckets k h') := by
  rw [runAggregationOnce_noFaults]
  obtain ⟨hnd, hstats, hex⟩ := range_groups hv db h
  constructor
  · rintro rfl hne
    obtain ⟨l, hl⟩ := hex k hne
    obtain ⟨r, hr, hd, -⟩ := findBucket_upsertAll_mem h' _ db hwf hnd k l hl
    rw [(hstats k l hl).1] at hd
    simp only [hr, Option.map_some', MetricBucket.content, naturalKey_of_matches
      (findBucket_mem hr).2, hd]
  · intro hnot
    apply findBucket_upsertAll_other h _ k h' _ db hwf
    by_cases hh : h' = h
    · right
      intro hk
      obtain ⟨⟨k', l⟩, hm, hfst⟩ := List.mem_map.mp hk
      simp only at hfst
      subst hfst
      exact hnot ⟨hh, (hstats k' l hm).2⟩
    · exact Or.inl hh

theorem WF_runAggregationOnce (f : AggFaults) (o : AggOrders) {db : DB} (hwf : db.WF) (h : Int) :
    (runAggregationOnce f o db h).1.WF := by
  obtain ⟨pre, post, -, hdb, -, -⟩ := runAggregationOnce_split f o db h
  rw [hdb]
  exact WF_upsertAll h pre db hwf

theorem events_runAggregationOnce (f : AggFaults) (o : AggOrders) (db : DB) (h : Int) :
    (runAggregationOnce f o db h).1.events = db.events := by
  obtain ⟨pre, post, -, hdb, -, -⟩ := runAggregationOnce_split f o db h
  rw [hdb]
  exact (events_upsertAll h pre db).1

/-- The lookups after error-free runs of two distinct hours, one after the other. -/
theorem lookup_two_runs {o₁ o₂ : AggOrders} (hv₁ : o₁.Valid) (hv₂ : o₂.Valid) {db : DB}
    (hwf : db.WF) (h₁ h₂ : Int) (k : Key) (h' : Int) :
    (findBucket (runAggregationOnce noFaults o₂
        (runAggregationOnce noFaults o₁ db h₁).1 h₂).1.buckets k h').map MetricBucket.content =
      if h' = h₂ ∧ groupOf db h₂ k ≠ [] then
        some ((k.UserID, k.Project, h₂),
          (statsRow h₂ k ((groupOf db h₂ k).map Event.sample)).derived)
      else if h' = h₁ ∧ groupOf db h₁ k ≠ [] then
        some ((k.UserID, k.Project, h₁),
          (statsRow h₁ k ((groupOf db h₁ k).map Event.sample)).derived)
      else (findBucket db.buckets k h').map MetricBucket.content := by
  have hwf₁ := WF_runAggregationOnce noFaults o₁ hwf h₁
  have hev := events_runAggregationOnce noFaults o₁ db h₁
  have hg : groupOf (runAggregationOnce noFaults o₁ db h₁).1 h₂ k = groupOf db h₂ k :=
    groupOf_congr hev h₂ k
  obtain ⟨hin₂, hout₂⟩ := lookup_runAggregationOnce hv₂ hwf₁ h₂ k h'
  obtain ⟨hin₁, hout₁⟩ := lookup_runAggregationOnce hv₁ hwf h₁ k h'
  rw [hg] at hin₂ hout₂
  by_cases hc₂ : h' = h₂ ∧ groupOf db h₂ k ≠ []
  · rw [if_pos hc₂]
    exact hin₂ hc₂.1 hc₂.2
  · rw [if_neg hc₂, hout₂ hc₂]
    by_cases hc₁ : h' = h₁ ∧ groupOf db h₁ k ≠ []
    · rw [if_pos hc₁]
      exact hin₁ hc₁.1 hc₁.2
    · rw [if_neg hc₁, hout₁ hc₁]

/-- C16. A call for hour h leaves every row of another hour in place and as
it was, and adds no row of another hour, whatever errors the database returns.
For two distinct hours, aggregating one then the other or the other then the
one (no database errors) gives bucket tables with the same row, primary key
apart, under every (tenant, project, hour); when natural keys are unique the
two tables hold the same rows, primary keys and row order apart. -/
theorem C16_windows_independent (o₁ o₂ o₃ o₄ : AggOrders) (hv₁ : o₁.Valid) (hv₂ : o₂.Valid)
    (hv₃ : o₃.Valid) (hv₄ : o₄.Valid) (db : DB) (hwf : db.WF) (h₁ h₂ : Int) (hne : h₁ ≠ h₂) :
    (∀ f : AggFaults,
      (runAggregationOnce f o₁ db h₁).1.buckets.filter (fun r => decide (r.BucketStart ≠ h₁)) =
        db.buckets.filter (fun r => decide (r.BucketStart ≠ h₁))) ∧
    (∀ k h,
      (findBucket (runAggregationOnce noFaults o₂
          (runAggregationOnce noFaults o₁ db h₁).1 h₂).1.buckets k h).map MetricBucket.content =
      (findBucket (runAggregationOnce noFaults o₄
          (runAggregationOnce noFaults o₃ db h₂).1 h₁).1.buckets k h).map MetricBucket.content) ∧
    (UniqueKeys db.buckets →
      ((runAggregationOnce noFaults o₂
          (runAggregationOnce noFaults o₁ db h₁).1 h₂).1.buckets.map MetricBucket.content).Perm
        ((runAggregationOnce noFaults o₄
          (runAggregationOnce noFaults o₃ db h₂).1 h₁).1.buckets.map MetricBucket.content)) := by
  have hlook : ∀ k h,
      (findBucket (runAggregationOnce noFaults o₂
          (runAggregationOnce noFaults o₁ db h₁).1 h₂).1.buckets k h).map MetricBucket.content =
      (findBucket (runAggregationOnce noFaults o₄
          (runAggregationOnce noFaults o₃ db h₂).1 h₁).1.buckets k h).map MetricBucket.content := by
    intro k h
    rw [lookup_two_runs hv₁ hv₂ hwf h₁ h₂ k h, lookup_two_runs hv₃ hv₄ hwf h₂ h₁ k h]
    by_cases hc₂ : h = h₂ ∧ groupOf db h₂ k ≠ []
    · have hc₁ : ¬ (h = h₁ ∧ groupOf db h₁ k ≠ []) := fun hc => hne (hc.1.symm.trans hc₂.1)
      rw [if_pos hc₂, if_neg hc₁, if_pos hc₂]
    · rw [if_neg hc₂, if_neg hc₂]
  refine ⟨?_, hlook, ?_⟩
  · intro f
    obtain ⟨pre, post, -, hdb, -, -⟩ := runAggregationOnce_split f o₁ db h₁
    rw [hdb]
    apply filter_upsertAll h₁ pre _ _ db hwf
    intro k l _ r hr
    rw [Bool.eq_false_iff]
    intro hm
    have := ((bucketMatches_iff k h₁ r).mp hm).2.2
    simp only [decide_eq_true_eq] at hr
    exact hr this
  · intro hu
    apply contents_perm_of_lookup _ _ hlook
    · exact UniqueKeys_runAggregationOnce _ _ _ _ (UniqueKeys_runAggregationOnce _ _ _ _ hu)
    · exact UniqueKeys_runAggregationOnce _ _ _ _ (UniqueKeys_runAggregationOnce _ _ _ _ hu)

/-- Witness of C16: the hours starting at 0 and at 3600000000000 on the
sample store; the row of the third hour is the one left in place. -/
theorem C16_windows_independent_witness :
    (runAggregationOnce noFaults plainOrders dbHours 0).1.buckets.filter
        (fun r => decide (r.BucketStart ≠ 0)) = dbHours.buckets ∧
    ((runAggregationOnce noFaults plainOrders
        (runAggregationOnce noFaults plainOrders dbHours 0).1 3600000000000).1.buckets.map
          MetricBucket.content).Perm
      ((runAggregationOnce noFaults plainOrders
        (runAggregationOnce noFaults plainOrders dbHours 3600000000000).1 0).1.buckets.map
          MetricBucket.content) := by
  have hc := C16_windows_independent plainOrders plainOrders plainOrders plainOrders
    plainOrders_valid plainOrders_valid plainOrders_valid plainOrders_valid dbHours (by decide)
    0 3600000000000 (by decide)
  exact ⟨hc.1 noFaults, hc.2.2 (by decide)⟩

/-! ## The workers -/

theorem Atoi_empty : Atoi "" = none := by decide

/-- C20. Key creation stores the requested retention clamped to the global
maximum: a value that parses as an integer v > 0 gives min(v, maximum), an
omitted value gives the maximum, and a value that is not an integer or not
positive is refused with 400, the table left as it was. A request that passes
every check stores one key with the retention so computed. Hence every key the
handler adds has RetentionDays at most the maximum; 90 requested under a
maximum of 30 stores 30. -/
theorem C20_creation_clamps_retention (createErr : Bool) (generated : Option String)
    (cfg : Config) (user : Option User) (name environment retentionStr : String)
    (tbl : KeyTable) :
    (∀ v, Atoi retentionStr = some v → 0 < v →
      CreateAPIKey.retentionDays cfg retentionStr = some (min v cfg.RetentionDays)) ∧
    CreateAPIKey.retentionDays cfg "" = some cfg.RetentionDays ∧
    (retentionStr ≠ "" → (Atoi retentionStr = none ∨ ∃ v, Atoi retentionStr = some v ∧ v ≤ 0) →
      (CreateAPIKey createErr generated cfg user name environment retentionStr tbl).2.statusCode
          = 400 ∧
        (CreateAPIKey createErr generated cfg user name environment retentionStr tbl).1 = tbl) ∧
    (∀ u key d, name ≠ "" → environment ≠ "" → user = some u → generated = some key →
      CreateAPIKey.retentionDays cfg retentionStr = some d →
      (CreateAPIKey false generated cfg user name environment retentionStr tbl).2.statusCode
          = 303 ∧
        (CreateAPIKey false generated cfg user name environment retentionStr tbl).1.keys =
          tbl.keys ++ [{ ID := tbl.seq, UserID := u.ID, Name := name, Environment := environment,
                         Key := key, RetentionDays := d, Active := true }]) ∧
    (∀ k ∈ (CreateAPIKey createErr generated cfg user name environment retentionStr tbl).1.keys,
      k ∈ tbl.keys ∨ k.RetentionDays ≤ cfg.RetentionDays) ∧
    (CreateAPIKey false (some "ai_x") { RetentionDays := 30 } (some adminUser) "shop" "prod" "90"
        emptyKeys).1.keys.map APIKey.RetentionDays = [30] := by
  have hle : ∀ d, CreateAPIKey.retentionDays cfg retentionStr = some d →
      d ≤ cfg.RetentionDays := by
    intro d hd
    unfold CreateAPIKey.retentionDays at hd
    by_cases hs : retentionStr = ""
    · simp only [hs, ne_eq, not_true_eq_false, if_false, Option.some.injEq] at hd
      omega
    · simp only [ne_eq, hs, not_false_eq_true, if_true] at hd
      cases ha : Atoi retentionStr with
      | none => rw [ha] at hd; simp at hd
      | some v =>
        rw [ha] at hd
        simp only at hd
        by_cases hv : v > 0
        · simp only [hv, if_true] at hd
          by_cases hm : v > cfg.RetentionDays
          · simp only [hm, if_true, Option.some.injEq] at hd; omega
          · simp only [hm, if_false, Option.some.injEq] at hd; omega
        · simp only [hv, if_false] at hd
          exact absurd hd (by simp)
  refine ⟨?_, ?_, ?_, ?_, ?_, by decide⟩
  · intro v hv hpos
    have hs : retentionStr ≠ "" := by
      intro he
      rw [he, Atoi_empty] at hv
      exact absurd hv (by simp)
    have hpos' : v > 0 := hpos
    unfold CreateAPIKey.retentionDays
    simp only [ne_eq, hs, not_false_eq_true, if_true, hv, hpos']
    by_cases hm : v > cfg.RetentionDays
    · simp only [hm, if_true, Option.some.injEq]
      exact (min_eq_right (le_of_lt hm)).symm
    · simp only [hm, if_false, Option.some.injEq]
      exact (min_eq_left (not_lt.mp hm)).symm
  · simp [CreateAPIKey.retentionDays]
  · intro hs hbad
    have hnone : CreateAPIKey.retentionDays cfg retentionStr = none := by
      unfold CreateAPIKey.retentionDays
      simp only [ne_eq, hs, not_false_eq_true, if_true]
      rcases hbad with ha | ⟨v, ha, hv⟩
      · rw [ha]
      · have : ¬ v > 0 := not_lt.mpr hv
        rw [ha]
        simp only [this, if_false]
    unfold CreateAPIKey
    by_cases hn : name = "" ∨ environment = ""
    · simp only [hn, if_true, and_self]
    · simp only [hn, if_false, hnone, and_self]
  · intro u key d hn he hu hg hd
    have hne : ¬ (name = "" ∨ environment = "") := by
      rintro (h | h)
      · exact hn h
      · exact he h
    subst hu hg
    unfold CreateAPIKey
    simp only [hne, if_false, hd, Bool.false_eq_true, and_self]
  · intro k hk
    unfold CreateAPIKey at hk
    by_cases hn : name = "" ∨ environment = ""
    · simp only [hn, if_true] at hk
      exact Or.inl hk
    · simp only [hn, if_false] at hk
      cases hd : CreateAPIKey.retentionDays cfg retentionStr with
      | none => rw [hd] at hk; exact Or.inl hk
      | some d =>
        rw [hd] at hk
        cases user with
        | none => exact Or.inl hk
        | some u =>
          cases generated with
          | none => exact Or.inl hk
          | some key =>
            cases createErr with
            | true => exact Or.inl hk
            | false =>
              simp only [Bool.false_eq_true, if_false, List.mem_append, List.mem_singleton] at hk
              rcases hk with hk | rfl
              · exact Or.inl hk
              · exact Or.inr (hle d hd)

/-- Witness of C20: the value "90" under a maximum of 30 is clamped to 30. -/
theorem C20_creation_clamps_retention_witness :
    CreateAPIKey.retentionDays { RetentionDays := 30 } "90" = some 30 :=
  (C20_creation_clamps_retention false none { RetentionDays := 30 } none "" "" "90"
    emptyKeys).1 90 (by decide) (by decide)

/-! ## Ingestion: failed write, ownership, configuration -/

/-- C21. When the batch insert returns an error the handler leaves the
database as it was and never answers 202; for a body with at least one event
of non-empty path, the case in which the insert is attempted, the answer is
500 with the body "failed to persist events" and no count. -/
theorem C21_failed_write_persists_nothing (cfg : Config) (now insertTime : Int) (apiKey : Option APIKey)
    (payload : Option (List IngestEvent)) (db : DB) :
    (IngestHandler true cfg now insertTime apiKey payload db).1 = db ∧
    (IngestHandler true cfg now insertTime apiKey payload db).2.statusCode ≠ 202 ∧
    (∀ events, payload = some events → (∃ ev ∈ events, ev.Path ≠ "") →
      (IngestHandler true cfg now insertTime apiKey payload db).2 =
        { statusCode := 500, body := "failed to persist events", contentType := none }) := by
  cases payload with
  | none => exact ⟨rfl, by simp [IngestHandler], fun events h => by simp at h⟩
  | some events =>
    rw [IngestHandler_some]
    by_cases hv : events.filter IngestEvent.valid = []
    · refine ⟨by simp [hv], by simp [hv], ?_⟩
      intro evs hevs hex
      simp only [Option.some.injEq] at hevs
      subst hevs
      obtain ⟨ev, hev, hp⟩ := hex
      exact absurd ((filter_valid_eq_nil events).mp hv ev hev) hp
    · refine ⟨by simp [hv], by simp [hv], ?_⟩
      intro _ _ _
      simp [hv]

/-- Witness of C21: the body with paths "/a" and "" when the insert fails. -/
theorem C21_failed_write_persists_nothing_witness :
    (IngestHandler true { RetentionDays := 30 } 1000 2000 (some (keyWithRetention 10))
      (some [mkIngest "/a" 5, mkIngest "" 5]) emptyDB).2 =
      { statusCode := 500, body := "failed to persist events", contentType := none } :=
  (C21_failed_write_persists_nothing { RetentionDays := 30 } 1000 2000 (some (keyWithRetention 10))
    (some [mkIngest "/a" 5, mkIngest "" 5]) emptyDB).2.2 _ rfl ⟨mkIngest "/a" 5, by decide, by decide⟩

theorem record_withoutUserID (d now : Int) (owner project : String) (ev : IngestEvent) :
    IngestHandler.record d now owner project ev.withoutUserID =
      IngestHandler.record d now owner project ev := rfl

theorem IngestHandler_withoutUserID (createErr : Bool) (cfg : Config) (now insertTime : Int)
    (apiKey : Option APIKey) (events : List IngestEvent) (db : DB) :
    IngestHandler createErr cfg now insertTime apiKey (some (events.map IngestEvent.withoutUserID)) db =
      IngestHandler createErr cfg now insertTime apiKey (some events) db := by
  have hf : (events.map IngestEvent.withoutUserID).filter IngestEvent.valid =
      (events.filter IngestEvent.valid).map IngestEvent.withoutUserID := by
    rw [List.filter_map]
    rfl
  have hnil : events.map IngestEvent.withoutUserID = [] ↔ events = [] := List.map_eq_nil_iff
  rw [IngestHandler_some, IngestHandler_some, hf]
  simp only [List.map_eq_nil_iff, List.map_map, List.length_map]
  rfl

theorem toString_intOfUint (u : Nat) (hu : u < 9223372036854775808) :
    toString (intOfUint u) = toString u := by
  have : intOfUint u = Int.ofNat u := by
    unfold intOfUint wrap64
    simp only [Int.ofNat_eq_coe]
    omega
  rw [this]
  rfl

theorem ownerUserID_eq (apiKey : Option APIKey) :
    IngestHandler.ownerUserID apiKey =
      (match apiKey with
       | some a => toString (intOfUint a.UserID)
       | none => "") := rfl

theorem match_some_key (g : APIKey → String) (ak : APIKey) :
    (match some ak with
     | some a => g a
     | none => "") = g ak := rfl

theorem ownerUserID_some (ak : APIKey) :
    IngestHandler.ownerUserID (some ak) = toString (intOfUint ak.UserID) :=
  (ownerUserID_eq (some ak)).trans (match_some_key (fun a => toString (intOfUint a.UserID)) ak)

theorem project_some (ak : APIKey) : IngestHandler.project (some ak) = ak.Name := by
  unfold IngestHandler.project
  exact Eq.refl _

/-- C28. With the API key `ak` in the request context, every event the
handler stores has as UserID the decimal text of `int(ak.UserID)`, which is the
decimal text of the key's UserID for every value below 2^63 (the range of the
column), and as Project the key's Name. The `user_id` fields of the payload
are not read: two bodies that agree once these fields are blanked give the
same answer and the same database. -/
theorem C28_owner_from_api_key (createErr : Bool) (cfg : Config) (now insertTime : Int) (ak : APIKey)
    (events : List IngestEvent) (db : DB) :
    (∃ new, (IngestHandler createErr cfg now insertTime (some ak) (some events) db).1.events =
        db.events ++ new ∧
      ∀ r ∈ new, r.UserID = toString (intOfUint ak.UserID) ∧ r.Project = ak.Name ∧
        (ak.UserID < 9223372036854775808 → r.UserID = toString ak.UserID)) ∧
    (∀ events' : List IngestEvent,
      events'.map IngestEvent.withoutUserID = events.map IngestEvent.withoutUserID →
      IngestHandler createErr cfg now insertTime (some ak) (some events') db =
        IngestHandler createErr cfg now insertTime (some ak) (some events) db) := by
  constructor
  · rw [IngestHandler_some]
    by_cases hv : events.filter IngestEvent.valid = []
    · exact ⟨[], by simp [hv], by simp⟩
    · cases createErr
      · simp only [hv, if_false, Bool.false_eq_true, createEvents]
        refine ⟨_, rfl, ?_⟩
        intro r hr
        obtain ⟨r₀, hr₀, -, h1, h2⟩ := mem_stored hr
        obtain ⟨ev, -, rfl⟩ := List.mem_map.mp hr₀
        have h3 : r.UserID = toString (intOfUint ak.UserID) := by
          rw [h1, (record_fields _ _ _ _ _).2.2.1, ownerUserID_some]
        have h4 : r.Project = ak.Name := by
          rw [h2, (record_fields _ _ _ _ _).2.2.2, project_some]
        refine ⟨h3, h4, ?_⟩
        intro hu
        rw [h3, toString_intOfUint _ hu]
      · exact ⟨[], by simp [hv], by simp⟩
  · intro events' heq
    rw [← IngestHandler_withoutUserID createErr cfg now insertTime (some ak) events' db, heq,
      IngestHandler_withoutUserID]

/-- Witness of C28: the same event sent with two different `user_id` values. -/
theorem C28_owner_from_api_key_witness :
    IngestHandler false { RetentionDays := 30 } 1000 2000 (some (keyWithRetention 10))
        (some [{ mkIngest "/a" 5 with UserID := "someone-else" }]) emptyDB =
      IngestHandler false { RetentionDays := 30 } 1000 2000 (some (keyWithRetention 10))
        (some [{ mkIngest "/a" 5 with UserID := "1" }]) emptyDB :=
  (C28_owner_from_api_key false { RetentionDays := 30 } 1000 2000 (keyWithRetention 10)
    [{ mkIngest "/a" 5 with UserID := "1" }] emptyDB).2
    [{ mkIngest "/a" 5 with UserID := "someone-else" }] rfl

theorem Load_cases (getenv : String → String) :
    (∀ d, Atoi (getenv "APP_RETENTION_DAYS") = some d → 0 < d →
      (Load getenv).RetentionDays = d) ∧
    ((Atoi (getenv "APP_RETENTION_DAYS") = none ∨
        ∃ d, Atoi (getenv "APP_RETENTION_DAYS") = some d ∧ d ≤ 0) →
      (Load getenv).RetentionDays = 30) := by
  constructor
  · intro d hd hpos
    have hs : getenv "APP_RETENTION_DAYS" ≠ "" := by
      intro he
      rw [he, Atoi_empty] at hd
      exact absurd hd (by simp)
    have hpos' : d > 0 := hpos
    simp [Load, hs, hd, hpos']
  · intro hbad
    unfold Load
    by_cases hs : getenv "APP_RETENTION_DAYS" = ""
    · simp [hs]
    · simp only [ne_eq, hs, not_false_eq_true, if_true]
      rcases hbad with ha | ⟨d, ha, hd⟩
      · rw [ha]
      · have : ¬ d > 0 := not_lt.mpr hd
        rw [ha]
        simp only [this, if_false]

theorem Load_pos (getenv : String → String) : 0 < (Load getenv).RetentionDays := by
  cases ha : Atoi (getenv "APP_RETENTION_DAYS") with
  | none =>
    rw [(Load_cases getenv).2 (Or.inl ha)]
    decide
  | some d =>
    by_cases hd : 0 < d
    · rw [(Load_cases getenv).1 d ha hd]
      exact hd
    · rw [(Load_cases getenv).2 (Or.inr ⟨d, ha, not_lt.mp hd⟩)]
      decide

/-- C30. The configuration returned by Load has RetentionDays > 0: the value
of APP_RETENTION_DAYS when it parses as an integer > 0, and 30 when it does
not parse (unset, empty, not a number) or is zero or negative. With such a
configuration the retention in force at ingestion is positive for any API key,
and every event the handler stores has an expiry. -/
theorem C30_load_retention_positive (getenv : String → String) (createErr : Bool) (now insertTime : Int)
    (apiKey : Option APIKey) (events : List IngestEvent) (db : DB) :
    0 < (Load getenv).RetentionDays ∧
    (∀ d, Atoi (getenv "APP_RETENTION_DAYS") = some d → 0 < d →
      (Load getenv).RetentionDays = d) ∧
    ((Atoi (getenv "APP_RETENTION_DAYS") = none ∨
        ∃ d, Atoi (getenv "APP_RETENTION_DAYS") = some d ∧ d ≤ 0) →
      (Load getenv).RetentionDays = 30) ∧
    0 < IngestHandler.retentionDays (Load getenv) apiKey ∧
    (∃ new, (IngestHandler createErr (Load getenv) now insertTime apiKey (some events) db).1.events =
        db.events ++ new ∧ ∀ r ∈ new, r.ExpiresAt ≠ none) ∧
    ((Load (envRetention "")).RetentionDays = 30 ∧ (Load (envRetention "abc")).RetentionDays = 30 ∧
      (Load (envRetention "0")).RetentionDays = 30 ∧
      (Load (envRetention "-5")).RetentionDays = 30 ∧
      (Load (envRetention "90")).RetentionDays = 90) := by
  have hpos := Load_pos getenv
  have heff : 0 < IngestHandler.retentionDays (Load getenv) apiKey := by
    unfold IngestHandler.retentionDays
    cases apiKey with
    | none => exact hpos
    | some ak =>
      by_cases hk : ak.RetentionDays > 0
      · simp only [hk, if_true]
      · simp only [hk, if_false]; exact hpos
  refine ⟨hpos, (Load_cases getenv).1, (Load_cases getenv).2, heff, ?_, by decide⟩
  rw [IngestHandler_some]
  by_cases hv : events.filter IngestEvent.valid = []
  · exact ⟨[], by simp [hv], by simp⟩
  · cases createErr
    · simp only [hv, if_false, Bool.false_eq_true, createEvents]
      refine ⟨_, rfl, ?_⟩
      intro r hr
      obtain ⟨r₀, hr₀, h1, -, -⟩ := mem_stored hr
      obtain ⟨ev, -, rfl⟩ := List.mem_map.mp hr₀
      have heff' : IngestHandler.retentionDays (Load getenv) apiKey > 0 := heff
      rw [h1, (record_fields _ _ _ _ _).2.1]
      simp [IngestHandler.expiresAt, heff']
    · exact ⟨[], by simp [hv], by simp⟩

/-- Witness of C30: APP_RETENTION_DAYS set to "90". -/
theorem C30_load_retention_positive_witness : (Load (envRetention "90")).RetentionDays = 90 :=
  (C30_load_retention_positive (envRetention "90") false 0 0 none [] emptyDB).2.1 90
    (by decide) (by decide)

/-! ## Percentiles of a written bucket -/

theorem sorted_getD_le {s : List Int} (hs : s.Sorted (· ≤ ·)) {i j : Nat} (hij : i ≤ j)
    (hj : j < s.length) : (s[i]?).getD 0 ≤ (s[j]?).getD 0 := by
  have hi : i < s.length := Nat.lt_of_le_of_lt hij hj
  rw [List.getElem?_eq_getElem hi, List.getElem?_eq_getElem hj, Option.getD_some, Option.getD_some]
  have := hs.rel_get_of_le (a := ⟨i, hi⟩) (b := ⟨j, hj⟩) hij
  simpa [List.get_eq_getElem] using this

theorem getD_mem {s : List Int} {i : Nat} (hi : i < s.length) : (s[i]?).getD 0 ∈ s := by
  rw [List.getElem?_eq_getElem hi, Option.getD_some]
  exact List.getElem_mem hi

theorem pctIndex_mono (n : Nat) {p q : Nat} (hpq : p ≤ q) : pctIndex n p ≤ pctIndex n q := by
  unfold pctIndex
  exact Nat.div_le_div_right (Nat.mul_le_mul_left n hpq)

/-- The percentiles of the row of a non-empty group are in ascending order and
are durations of the group. -/
theorem statsRow_percentiles (h : Int) (k : Key) (l : List Sample) (hne : l ≠ []) :
    (statsRow h k l).DurationP50Ms ≤ (statsRow h k l).DurationP95Ms ∧
    (statsRow h k l).DurationP95Ms ≤ (statsRow h k l).DurationP99Ms ∧
    (statsRow h k l).DurationP50Ms ∈ l.map Sample.dur ∧
    (statsRow h k l).DurationP95Ms ∈ l.map Sample.dur ∧
    (statsRow h k l).DurationP99Ms ∈ l.map Sample.dur := by
  have hs : (sortDurations (l.map Sample.dur)).Sorted (· ≤ ·) := List.sorted_insertionSort _ _
  have hperm : (sortDurations (l.map Sample.dur)).Perm (l.map Sample.dur) :=
    List.perm_insertionSort _ _
  have hn : 0 < (sortDurations (l.map Sample.dur)).length := by
    rw [hperm.length_eq, List.length_map]
    exact List.length_pos.mpr hne
  have h50 := pctIndex_lt hn (show 50 < 100 by decide)
  have h95 := pctIndex_lt hn (show 95 < 100 by decide)
  have h99 := pctIndex_lt hn (show 99 < 100 by decide)
  simp only [statsRow]
  exact ⟨sorted_getD_le hs (pctIndex_mono _ (by decide)) h95,
    sorted_getD_le hs (pctIndex_mono _ (by decide)) h99,
    hperm.mem_iff.mp (getD_mem h50), hperm.mem_iff.mp (getD_mem h95),
    hperm.mem_iff.mp (getD_mem h99)⟩

/-- The row found for a non-empty group after a call that returned without
error: its derived columns are those computed from the events of the group. -/
theorem written_row (f : AggFaults) {o : AggOrders} (hv : o.Valid) {db : DB} (hwf : db.WF)
    (h : Int) (hok : (runAggregationOnce f o db h).2 = Outcome.ok) (k : Key)
    (hne : groupOf db h k ≠ []) :
    ∃ r, findBucket (runAggregationOnce f o db h).1.buckets k h = some r ∧
      r.derived = (statsRow h k ((groupOf db h k).map Event.sample)).derived ∧
      (∀ old, findBucket db.buckets k h = some old → r.ID = old.ID) := by
  obtain ⟨pre, post, hsplit, hdb, hpost, -⟩ := runAggregationOnce_split f o db h
  have hnil := hpost hok
  subst hnil
  rw [List.append_nil] at hsplit
  rw [hdb, ← hsplit]
  obtain ⟨hnd, hstats, hex⟩ := range_groups hv db h
  obtain ⟨l, hl⟩ := hex k hne
  obtain ⟨r, hr, hd, hold⟩ := findBucket_upsertAll_mem h _ db hwf hnd k l hl
  rw [(hstats k l hl).1] at hd
  exact ⟨r, hr, hd, hold⟩

/-- C25. Whenever a call returns without error, the bucket of every non-empty
group has p50 <= p95 <= p99, each of the three is the duration_ms of an event of
the group, and each lies between the least and the greatest duration of the
group. -/
theorem C25_percentiles_ordered (f : AggFaults) (o : AggOrders) (hv : o.Valid) (db : DB)
    (hwf : db.WF) (h : Int) (hok : (runAggregationOnce f o db h).2 = Outcome.ok) (k : Key)
    (hne : groupOf db h k ≠ []) :
    ∃ r, findBucket (runAggregationOnce f o db h).1.buckets k h = some r ∧
      r.DurationP50Ms ≤ r.DurationP95Ms ∧ r.DurationP95Ms ≤ r.DurationP99Ms ∧
      (∀ v ∈ [r.DurationP50Ms, r.DurationP95Ms, r.DurationP99Ms],
        (∃ e ∈ groupOf db h k, e.DurationMs = v) ∧
        (∀ lo ∈ groupOf db h k, (∀ e ∈ groupOf db h k, lo.DurationMs ≤ e.DurationMs) →
          lo.DurationMs ≤ v) ∧
        (∀ hi ∈ groupOf db h k, (∀ e ∈ groupOf db h k, e.DurationMs ≤ hi.DurationMs) →
          v ≤ hi.DurationMs)) := by
  obtain ⟨r, hr, hd, -⟩ := written_row f hv hwf h hok k hne
  have hne' : (groupOf db h k).map Event.sample ≠ [] := by
    intro hc; exact hne (List.map_eq_nil_iff.mp hc)
  obtain ⟨h1, h2, m50, m95, m99⟩ := statsRow_percentiles h k _ hne'
  simp only [MetricBucket.derived, Prod.mk.injEq] at hd
  rw [← hd.2.2.1, ← hd.2.2.2.1] at h1
  rw [← hd.2.2.2.1, ← hd.2.2.2.2] at h2
  rw [← hd.2.2.1, map_dur_sample] at m50
  rw [← hd.2.2.2.1, map_dur_sample] at m95
  rw [← hd.2.2.2.2, map_dur_sample] at m99
  have hmem : ∀ v, v ∈ (groupOf db h k).map Event.DurationMs →
      (∃ e ∈ groupOf db h k, e.DurationMs = v) ∧
      (∀ lo ∈ groupOf db h k, (∀ e ∈ groupOf db h k, lo.DurationMs ≤ e.DurationMs) →
        lo.DurationMs ≤ v) ∧
      (∀ hi ∈ groupOf db h k, (∀ e ∈ groupOf db h k, e.DurationMs ≤ hi.DurationMs) →
        v ≤ hi.DurationMs) := by
    intro v hv'
    obtain ⟨e, he, rfl⟩ := List.mem_map.mp hv'
    exact ⟨⟨e, he, rfl⟩, fun lo _ hlo => hlo e he, fun hi _ hhi => hhi e he⟩
  refine ⟨r, hr, h1, h2, ?_⟩
  intro v hv'
  simp only [List.mem_cons, List.mem_singleton, List.not_mem_nil, or_false] at hv'
  rcases hv' with rfl | rfl | rfl
  · exact hmem _ m50
  · exact hmem _ m95
  · exact hmem _ m99

/-- Witness of C25: the group of five events with durations 10 to 50. -/
theorem C25_percentiles_ordered_witness :
    ∃ r, findBucket (runAggregationOnce noFaults plainOrders dbFive 0).1.buckets keyShop 0 = some r ∧
      r.DurationP50Ms ≤ r.DurationP95Ms ∧ r.DurationP95Ms ≤ r.DurationP99Ms := by
  obtain ⟨r, hr, h1, h2, -⟩ :=
    C25_percentiles_ordered noFaults plainOrders plainOrders_valid dbFive (by decide) 0
      (by decide) keyShop (by decide)
  exact ⟨r, hr, h1, h2⟩

/-! ## Independence of orders and of other groups -/

theorem bucket_ext {r r' : MetricBucket} (hid : r.ID = r'.ID) (hc : r.content = r'.content) :
    r = r' := by
  cases r; cases r'
  simp only [MetricBucket.content, MetricBucket.naturalKey, MetricBucket.derived,
    Prod.mk.injEq] at hc
  simp only at hid
  simp only [MetricBucket.mk.injEq]
  exact ⟨hid, hc.1.1, hc.1.2.1, hc.1.2.2, hc.2.1, hc.2.2.1, hc.2.2.2.1, hc.2.2.2.2.1,
    hc.2.2.2.2.2⟩

theorem reverseOrders_valid : reverseOrders.Valid :=
  ⟨fun l => List.reverse_perm l, fun g => List.reverse_perm g⟩

/-- C26. Without database errors, two runs of the same hour on the same
database that differ in the order in which the window query returns its rows
and in the order in which the groups are visited leave the same MetricBucket
under every (tenant, project, hour); a row that existed before the run is the
same row with the same primary key in both, and with unique natural keys the
two tables hold the same rows, primary keys of inserted rows and row order
apart. -/
theorem C26_order_independent (o₁ o₂ : AggOrders) (hv₁ : o₁.Valid) (hv₂ : o₂.Valid) (db : DB)
    (hwf : db.WF) (h : Int) :
    (∀ k h',
      (findBucket (runAggregationOnce noFaults o₁ db h).1.buckets k h').map MetricBucket.content =
      (findBucket (runAggregationOnce noFaults o₂ db h).1.buckets k h').map
        MetricBucket.content) ∧
    (∀ k h', (findBucket db.buckets k h').isSome = true →
      findBucket (runAggregationOnce noFaults o₁ db h).1.buckets k h' =
        findBucket (runAggregationOnce noFaults o₂ db h).1.buckets k h') ∧
    (UniqueKeys db.buckets →
      ((runAggregationOnce noFaults o₁ db h).1.buckets.map MetricBucket.content).Perm
        ((runAggregationOnce noFaults o₂ db h).1.buckets.map MetricBucket.content)) := by
  have hlook : ∀ k h',
      (findBucket (runAggregationOnce noFaults o₁ db h).1.buckets k h').map MetricBucket.content =
      (findBucket (runAggregationOnce noFaults o₂ db h).1.buckets k h').map
        MetricBucket.content := by
    intro k h'
    obtain ⟨hin₁, hout₁⟩ := lookup_runAggregationOnce hv₁ hwf h k h'
    obtain ⟨hin₂, hout₂⟩ := lookup_runAggregationOnce hv₂ hwf h k h'
    by_cases hc : h' = h ∧ groupOf db h k ≠ []
    · rw [hin₁ hc.1 hc.2, hin₂ hc.1 hc.2]
    · rw [hout₁ hc, hout₂ hc]
  refine ⟨hlook, ?_, ?_⟩
  · intro k h' hsome
    obtain ⟨-, hout₁⟩ := lookup_runAggregationOnce hv₁ hwf h k h'
    obtain ⟨-, hout₂⟩ := lookup_runAggregationOnce hv₂ hwf h k h'
    by_cases hc : h' = h ∧ groupOf db h k ≠ []
    · obtain ⟨rfl, hne⟩ := hc
      have hok₁ : (runAggregationOnce noFaults o₁ db h').2 = Outcome.ok := by
        rw [runAggregationOnce_noFaults]
      have hok₂ : (runAggregationOnce noFaults o₂ db h').2 = Outcome.ok := by
        rw [runAggregationOnce_noFaults]
      obtain ⟨r₁, hr₁, hd₁, hold₁⟩ := written_row noFaults hv₁ hwf h' hok₁ k hne
      obtain ⟨r₂, hr₂, hd₂, hold₂⟩ := written_row noFaults hv₂ hwf h' hok₂ k hne
      cases hf : findBucket db.buckets k h' with
      | none => rw [hf] at hsome; simp at hsome
      | some old =>
        rw [hr₁, hr₂]
        congr 1
        apply bucket_ext
        · rw [hold₁ old hf, hold₂ old hf]
        · simp only [MetricBucket.content, naturalKey_of_matches (findBucket_mem hr₁).2,
            naturalKey_of_matches (findBucket_mem hr₂).2, hd₁, hd₂]
    · rw [hout₁ hc, hout₂ hc]
  · intro hu
    exact contents_perm_of_lookup (UniqueKeys_runAggregationOnce _ _ _ _ hu)
      (UniqueKeys_runAggregationOnce _ _ _ _ hu) hlook

/-- Witness of C26: plain order against reverse order on the store with two
groups; the stale row of the shop group is the same row in both results. -/
theorem C26_order_independent_witness :
    findBucket (runAggregationOnce noFaults plainOrders dbTwo 0).1.buckets keyShop 0 =
      findBucket (runAggregationOnce noFaults reverseOrders dbTwo 0).1.buckets keyShop 0 ∧
    ((runAggregationOnce noFaults plainOrders dbTwo 0).1.buckets.map MetricBucket.content).Perm
      ((runAggregationOnce noFaults reverseOrders dbTwo 0).1.buckets.map MetricBucket.content) := by
  have hc := C26_order_independent plainOrders reverseOrders plainOrders_valid reverseOrders_valid
    dbTwo (by decide) 0
  exact ⟨hc.2.1 keyShop 0 (by decide), hc.2.2 (by decide)⟩

/-- C27. The MetricBucket left under (tenant, project, h) by a run without
database errors is computed from the events of the window that carry exactly
that tenant and that project: for two databases whose groups for the pair are
the same and not empty, whatever their other events and their bucket tables,
it has the same natural key and derived columns; when the group is empty in
both and the bucket tables are the same, it is in both what it was. -/
theorem C27_group_isolation (o₁ o₂ : AggOrders) (hv₁ : o₁.Valid) (hv₂ : o₂.Valid) (db₁ db₂ : DB)
    (hwf₁ : db₁.WF) (hwf₂ : db₂.WF) (h : Int) (k : Key)
    (hagree : groupOf db₁ h k = groupOf db₂ h k) :
    (groupOf db₁ h k ≠ [] →
      (findBucket (runAggregationOnce noFaults o₁ db₁ h).1.buckets k h).map MetricBucket.content =
        some ((k.UserID, k.Project, h),
          (statsRow h k ((groupOf db₁ h k).map Event.sample)).derived) ∧
      (findBucket (runAggregationOnce noFaults o₂ db₂ h).1.buckets k h).map MetricBucket.content =
        some ((k.UserID, k.Project, h),
          (statsRow h k ((groupOf db₁ h k).map Event.sample)).derived)) ∧
    (db₁.buckets = db₂.buckets →
      (findBucket (runAggregationOnce noFaults o₁ db₁ h).1.buckets k h).map MetricBucket.content =
        (findBucket (runAggregationOnce noFaults o₂ db₂ h).1.buckets k h).map
          MetricBucket.content) := by
  obtain ⟨hin₁, hout₁⟩ := lookup_runAggregationOnce hv₁ hwf₁ h k h
  obtain ⟨hin₂, hout₂⟩ := lookup_runAggregationOnce hv₂ hwf₂ h k h
  rw [← hagree] at hin₂ hout₂
  refine ⟨fun hne => ⟨hin₁ rfl hne, hin₂ rfl hne⟩, ?_⟩
  intro hb
  by_cases hne : groupOf db₁ h k ≠ []
  · rw [hin₁ rfl hne, hin₂ rfl hne]
  · have hc : ¬ (h = h ∧ groupOf db₁ h k ≠ []) := fun hc => hne hc.2
    rw [hout₁ hc, hout₂ hc, hb]

/-- Witness of C27: the shop group of tenant 1 in two stores that differ in
the events of other groups. -/
theorem C27_group_isolation_witness :
    (findBucket (runAggregationOnce noFaults plainOrders dbTwo 0).1.buckets keyShop 0).map
        MetricBucket.content =
      (findBucket (runAggregationOnce noFaults plainOrders dbOther 0).1.buckets keyShop 0).map
        MetricBucket.content :=
  (C27_group_isolation plainOrders plainOrders plainOrders_valid plainOrders_valid dbTwo dbOther
    (by decide) (by decide) 0 keyShop (by decide)).2 rfl

/-! ## Bearer authentication -/

theorem TrimSpace_all_space (s : String) (hs : ∀ c ∈ s.data, isSpace c = true) :
    TrimSpace s = "" := by
  unfold TrimSpace
  have h1 : s.data.dropWhile isSpace = [] := List.dropWhile_eq_nil_iff.mpr hs
  rw [h1]
  rfl

theorem preloadUser_spec (users : List User) (ak : APIKey) :
    (∀ u ∈ users, u.ID = ak.UserID → ak.UserID ≠ 0 → (users.map User.ID).Nodup →
      preloadUser users ak = u) ∧
    (ak.UserID ≠ 0 → (∃ u ∈ users, u.ID = ak.UserID) →
      preloadUser users ak ∈ users ∧ (preloadUser users ak).ID = ak.UserID) ∧
    ((ak.UserID = 0 ∨ ∀ u ∈ users, u.ID ≠ ak.UserID) → preloadUser users ak = zeroUser) := by
  have hfound : ak.UserID ≠ 0 → (∃ u ∈ users, u.ID = ak.UserID) →
      preloadUser users ak ∈ users ∧ (preloadUser users ak).ID = ak.UserID := by
    intro h0 ⟨u, hu, hid⟩
    unfold preloadUser
    rw [if_neg h0]
    cases hf : users.find? fun u => decide (u.ID = ak.UserID) with
    | none =>
      have := List.find?_eq_none.mp hf u hu
      simp [hid] at this
    | some w =>
      have hp := List.find?_some hf
      simp only [decide_eq_true_eq] at hp
      exact ⟨List.mem_of_find?_eq_some hf, hp⟩
  refine ⟨?_, hfound, ?_⟩
  · intro u hu hid h0 hnd
    obtain ⟨hm, hi⟩ := hfound h0 ⟨u, hu, hid⟩
    exact List.inj_on_of_nodup_map hnd hm hu (hi.trans hid.symm)
  · intro h
    unfold preloadUser
    by_cases h0 : ak.UserID = 0
    · rw [if_pos h0]
    · rw [if_neg h0]
      rcases h with h | h
      · exact absurd h h0
      · have hnone : (users.find? fun u => decide (u.ID = ak.UserID)) = none := by
          rw [List.find?_eq_none]
          intro u hu
          simpa using h u hu
        rw [hnone]

/-- C22. The middleware answers 401 without calling the wrapped handler when
the Authorization header is missing, when it does not start with "Bearer ",
when what follows is empty or only white space, and when (the lookup not
failing) no active key has the trimmed token as its value. Whenever the wrapped
handler is called, the header starts with "Bearer ", the trimmed token is not
empty, an active key of the table has it as its value, and the handler is
called with that token, that key and the key's owner in the context: the row
of the users table whose primary key is the key's UserID (the one such row,
primary keys being distinct), and the zero user only when the UserID is zero
or no row has it. With the users bob (3) and admin (7) in the table, the key
of user 7 reaches the handler with admin as its owner. -/
theorem C22_bearer_auth_gate {α : Type} (dbErr : Bool) (keys : List APIKey) (users : List User)
    (next : AuthCtx → α) (authorization : String) :
    (authorization = "" → (BearerAuth dbErr keys users next authorization).unauthorized) ∧
    (authorization.data.take 7 ≠ "Bearer ".data →
      (BearerAuth dbErr keys users next authorization).unauthorized) ∧
    (bearerToken authorization = "" →
      (BearerAuth dbErr keys users next authorization).unauthorized) ∧
    ((∀ c ∈ authorization.data.drop 7, isSpace c = true) →
      (BearerAuth dbErr keys users next authorization).unauthorized) ∧
    (dbErr = false →
      (∀ ak ∈ keys, ¬ (ak.Key = bearerToken authorization ∧ ak.Active = true)) →
      (BearerAuth dbErr keys users next authorization).unauthorized) ∧
    (∀ result, BearerAuth dbErr keys users next authorization = AuthOutcome.passed result →
      authorization.data.take 7 = "Bearer ".data ∧ bearerToken authorization ≠ "" ∧
      ∃ ak ∈ keys, ak.Active = true ∧ ak.Key = bearerToken authorization ∧
        ∃ owner,
          result = next { userToken := bearerToken authorization, apiKey := ak, user := owner } ∧
          (∀ u ∈ users, u.ID = ak.UserID → ak.UserID ≠ 0 → (users.map User.ID).Nodup →
            owner = u) ∧
          (ak.UserID ≠ 0 → (∃ u ∈ users, u.ID = ak.UserID) →
            owner ∈ users ∧ owner.ID = ak.UserID) ∧
          ((ak.UserID = 0 ∨ ∀ u ∈ users, u.ID ≠ ak.UserID) → owner = zeroUser)) ∧
    (BearerAuth false sampleKeys [adminUser] (fun c => c.apiKey.Name) "Bearer  ai_live " =
        AuthOutcome.passed "shop" ∧
      BearerAuth false sampleKeys [otherUser, adminUser] (fun c => c) "Bearer ai_live" =
        AuthOutcome.passed
          { userToken := "ai_live",
            apiKey := { ID := 1, UserID := 7, Name := "shop", Environment := "prod",
                        Key := "ai_live", RetentionDays := 10, Active := true },
            user := adminUser } ∧
      BearerAuth false sampleKeys [otherUser] (fun c => c.user) "Bearer ai_live" =
        AuthOutcome.passed zeroUser ∧
      (BearerAuth false sampleKeys [adminUser] (fun c => c.apiKey.Name)
        "Bearer ai_off").unauthorized ∧
      (BearerAuth false sampleKeys [adminUser] (fun c => c.apiKey.Name)
        "Bearer    ").unauthorized ∧
      (BearerAuth false sampleKeys [adminUser] (fun c => c.apiKey.Name)
        "ai_live").unauthorized) := by
  have hempty : bearerToken authorization = "" →
      (BearerAuth dbErr keys users next authorization).unauthorized := by
    intro ht
    unfold BearerAuth
    by_cases h1 : authorization = ""
    · rw [if_pos h1]; exact rfl
    · rw [if_neg h1]
      by_cases h2 : authorization.data.take 7 ≠ "Bearer ".data
      · rw [if_pos h2]; exact rfl
      · rw [if_neg h2]
        simp only
        rw [if_pos ht]; exact rfl
  refine ⟨?_, ?_, hempty, ?_, ?_, ?_, ?_⟩
  · intro h1
    unfold BearerAuth
    rw [if_pos h1]; exact rfl
  · intro h2
    unfold BearerAuth
    by_cases h1 : authorization = ""
    · rw [if_pos h1]; exact rfl
    · rw [if_neg h1, if_pos h2]; exact rfl
  · intro hsp
    apply hempty
    unfold bearerToken
    exact TrimSpace_all_space _ hsp
  · intro hdb hno
    subst hdb
    by_cases h3 : bearerToken authorization = ""
    · exact hempty h3
    · unfold BearerAuth
      by_cases h1 : authorization = ""
      · rw [if_pos h1]; exact rfl
      · rw [if_neg h1]
        by_cases h2 : authorization.data.take 7 ≠ "Bearer ".data
        · rw [if_pos h2]; exact rfl
        · have hfind : (keys.find? fun ak =>
              decide (ak.Key = bearerToken authorization) && ak.Active) = none := by
            rw [List.find?_eq_none]
            intro ak hak
            have := hno ak hak
            simpa using this
          rw [if_neg h2]
          simp only
          rw [if_neg h3, if_neg (by decide : ¬ (false = true)), hfind]
          exact rfl
  · intro result hres
    unfold BearerAuth at hres
    by_cases h1 : authorization = ""
    · rw [if_pos h1] at hres; cases hres
    · rw [if_neg h1] at hres
      by_cases h2 : authorization.data.take 7 ≠ "Bearer ".data
      · rw [if_pos h2] at hres; cases hres
      · rw [if_neg h2] at hres
        simp only at hres
        by_cases h3 : bearerToken authorization = ""
        · rw [if_pos h3] at hres; cases hres
        · rw [if_neg h3] at hres
          cases dbErr with
          | true => rw [if_pos rfl] at hres; cases hres
          | false =>
            rw [if_neg (by decide : ¬ (false = true))] at hres
            cases hf : (keys.find? fun ak =>
                decide (ak.Key = bearerToken authorization) && ak.Active) with
            | none => rw [hf] at hres; cases hres
            | some ak =>
              rw [hf] at hres
              simp only [AuthOutcome.passed.injEq] at hres
              have hp := List.find?_some hf
              simp only [Bool.and_eq_true, decide_eq_true_eq] at hp
              exact ⟨not_not.mp h2, h3, ak, List.mem_of_find?_eq_some hf, hp.2, hp.1,
                preloadUser users ak, hres.symm, preloadUser_spec users ak⟩
  · refine ⟨by decide, by decide, by decide, ?_, ?_, ?_⟩ <;> decide

/-- Witness of C22: a header that carries the value of the disabled key. -/
theorem C22_bearer_auth_gate_witness :
    (BearerAuth false sampleKeys [adminUser] (fun c => c.apiKey.Name)
      "Bearer ai_off").unauthorized :=
  (C22_bearer_auth_gate false sampleKeys [adminUser] (fun c => c.apiKey.Name)
    "Bearer ai_off").2.2.2.2.1 rfl (by decide)

/-! ## Error rate -/

theorem round_zero (F : Float64Arith) : F.round 0 = 0 := by
  have := F.round_int 0 (by decide)
  simpa using this

theorem round_one (F : Float64Arith) : F.round 1 = 1 := by
  have := F.round_int 1 (by decide)
  simpa using this

theorem round_total_pos (F : Float64Arith) {t : Int} (ht : 0 < t) : 1 ≤ F.round (t : ℚ) := by
  have h1 : (1 : ℚ) ≤ (t : ℚ) := by exact_mod_cast ht
  have := F.round_mono 1 t h1
  rwa [round_one] at this

/-- The rate of a bucket whose error count lies between 0 and a positive total
lies between 0 and 1. -/
theorem errorRate_bounds (F : Float64Arith) (b : MetricBucket) (h0 : 0 ≤ b.ErrorCount)
    (h1 : b.ErrorCount ≤ b.TotalCount) (ht : 1 ≤ b.TotalCount) :
    0 ≤ errorRate F b ∧ errorRate F b ≤ 1 := by
  have htpos : b.TotalCount > 0 := ht
  have hrt := round_total_pos F htpos
  have hre0 : 0 ≤ F.round (b.ErrorCount : ℚ) := by
    have := F.round_mono 0 b.ErrorCount (by exact_mod_cast h0)
    rwa [round_zero] at this
  have hret : F.round (b.ErrorCount : ℚ) ≤ F.round (b.TotalCount : ℚ) :=
    F.round_mono _ _ (by exact_mod_cast h1)
  have hq0 : 0 ≤ F.round (b.ErrorCount : ℚ) / F.round (b.TotalCount : ℚ) :=
    div_nonneg hre0 (le_trans zero_le_one hrt)
  have hq1 : F.round (b.ErrorCount : ℚ) / F.round (b.TotalCount : ℚ) ≤ 1 :=
    (div_le_one (lt_of_lt_of_le zero_lt_one hrt)).mpr hret
  simp only [errorRate, htpos, if_true]
  constructor
  · have := F.round_mono _ _ hq0
    rwa [round_zero] at this
  · have := F.round_mono _ _ hq1
    rwa [round_one] at this

/-- C23. The rate reported for a bucket is 0 when total_count is 0 (or less),
without any division; when total_count > 0 it is the float64 quotient of
error_count by total_count, whose divisor is then at least 1. For total_count
100 and error_count 7 it is the float64 value of 7/100, the value that the
decimal 0.07 denotes. The series reports it beside the two counts, bucket by
bucket. -/
theorem C23_error_rate (F : Float64Arith) (b : MetricBucket) (buckets : List MetricBucket) :
    (b.TotalCount ≤ 0 → errorRate F b = 0) ∧
    (0 < b.TotalCount →
      errorRate F b = F.round (F.round (b.ErrorCount : ℚ) / F.round (b.TotalCount : ℚ)) ∧
      F.round (b.TotalCount : ℚ) ≠ 0) ∧
    (b.TotalCount = 100 → b.ErrorCount = 7 → errorRate F b = F.round (7 / 100)) ∧
    (errorRateSeries F buckets).map (fun p => (p.errorRate, p.total, p.errors)) =
      buckets.map (fun x => (errorRate F x, x.TotalCount, x.ErrorCount)) := by
  refine ⟨?_, ?_, ?_, ?_⟩
  · intro ht
    have : ¬ b.TotalCount > 0 := not_lt.mpr ht
    simp only [errorRate, this, if_false]
  · intro ht
    have ht' : b.TotalCount > 0 := ht
    refine ⟨by simp only [errorRate, ht', if_true], ?_⟩
    have := round_total_pos F ht
    intro hz
    rw [hz] at this
    exact absurd this (by norm_num)
  · intro ht he
    have ht' : b.TotalCount > 0 := by rw [ht]; decide
    have h100 := F.round_int 100 (by decide)
    have h7 := F.round_int 7 (by decide)
    simp only [errorRate, ht', if_true, ht, he]
    push_cast at h100 h7 ⊢
    rw [h100, h7]
  · simp only [errorRateSeries, List.map_map]
    rfl

/-- Witness of C23: with exact arithmetic the rate of 7 errors in 100 is 7/100,
and the rate of a bucket with a total of 0 is 0. -/
theorem C23_error_rate_witness :
    errorRate exactArith (bucketWithCounts 100 7) = 7 / 100 ∧
    errorRate exactArith (bucketWithCounts 0 0) = 0 :=
  ⟨(C23_error_rate exactArith (bucketWithCounts 100 7) []).2.2.1 rfl rfl,
    (C23_error_rate exactArith (bucketWithCounts 0 0) []).1 (by decide)⟩

/-- C29. Whenever a call returns without error, the bucket of every non-empty
group has 0 <= error_count <= total_count and total_count >= 1, and the error
rate computed from it lies between 0 and 1, both included. -/
theorem C29_counts_and_rate_bounded (f : AggFaults) (o : AggOrders) (hv : o.Valid) (db : DB)
    (hwf : db.WF) (h : Int) (hok : (runAggregationOnce f o db h).2 = Outcome.ok) (k : Key)
    (hne : groupOf db h k ≠ []) :
    ∃ r, findBucket (runAggregationOnce f o db h).1.buckets k h = some r ∧
      0 ≤ r.ErrorCount ∧ r.ErrorCount ≤ r.TotalCount ∧ 1 ≤ r.TotalCount ∧
      ∀ F : Float64Arith, 0 ≤ errorRate F r ∧ errorRate F r ≤ 1 := by
  obtain ⟨r, hr, hd, -⟩ := written_row f hv hwf h hok k hne
  have hc := derived_statsRow_counts h k _ hd
  have hlen : 0 < ((groupOf db h k).map Event.sample).length := by
    rw [List.length_map]; exact List.length_pos.mpr hne
  have hle := List.countP_le_length (fun p : Sample => isError p.status)
    (l := (groupOf db h k).map Event.sample)
  have h0 : 0 ≤ r.ErrorCount := by rw [hc.2]; exact Int.ofNat_nonneg _
  have h1 : r.ErrorCount ≤ r.TotalCount := by rw [hc.1, hc.2]; exact_mod_cast hle
  have ht : 1 ≤ r.TotalCount := by rw [hc.1]; exact_mod_cast hlen
  exact ⟨r, hr, h0, h1, ht, fun F => errorRate_bounds F r h0 h1 ht⟩

/-- Witness of C29: the group of five events, two of them errors. -/
theorem C29_counts_and_rate_bounded_witness :
    ∃ r, findBucket (runAggregationOnce noFaults plainOrders dbFive 0).1.buckets keyShop 0 = some r ∧
      0 ≤ r.ErrorCount ∧ r.ErrorCount ≤ r.TotalCount ∧ 1 ≤ r.TotalCount ∧
      0 ≤ errorRate exactArith r ∧ errorRate exactArith r ≤ 1 := by
  obtain ⟨r, hr, h0, h1, ht, hF⟩ :=
    C29_counts_and_rate_bounded noFaults plainOrders plainOrders_valid dbFive (by decide) 0
      (by decide) keyShop (by decide)
  exact ⟨r, hr, h0, h1, ht, hF exactArith⟩

end ApiInsight
